import Mathlib

/-!
Verification development for the payslip-extraction program (src/app.py).

The Python source is shallowly embedded below.  Conventions used throughout:

* Python strings are Lean `String`s; most functions work on `String.data`
  (a `List Char`), since the builtin `String` order/iterator functions do not
  reduce well in the kernel.
* Python `float` amounts are modelled as exact scaled decimals
  (`Valor`: mantissa and a power-of-ten scale).  The program only parses,
  stores and prints amounts - it never computes with them - so the binary
  rounding of IEEE floats is irrelevant to every claim; `Valor.q` gives the
  rational value a `Valor` denotes.
* `re` patterns are embedded as deterministic matchers.  The two patterns of
  the source contain no ambiguous backtracking (every quantified class is
  disjoint from the literal that follows it), so maximal-munch scanning is
  exact.  `re.I` is modelled for the ASCII letters and for the Latin-1
  letters that actually occur in the patterns.
* Character classes (`\s`, `\d`, `str.strip`, `str.upper`, `str.title`,
  `str.splitlines`) are modelled on the ASCII / Latin-1 repertoire that can
  occur in payslip text; the exotic Unicode cases (Kelvin sign, U+1C-1F
  separators, ...) are outside the model.
* I/O (the HTTP call to the extraction service, `pdfplumber`, `pytesseract`,
  Streamlit widgets) is external: the per-page texts each acquisition
  strategy would return are taken as inputs, and a raised exception is an
  `Option.none` input / output.
-/

/-- ASCII whitespace recognised by Python `str.strip`, `\s` and `re.split`. -/
def pws (c : Char) : Bool :=
  c = ' ' ∨ c = '\t' ∨ c = '\n' ∨ c = '\x0d' ∨ c = '\x0b' ∨ c = '\x0c'

/-- ASCII decimal digit (`\d`). -/
def isDig (c : Char) : Bool := '0' ≤ c ∧ c ≤ '9'

/-- Numeric value of a digit character. -/
def digVal (c : Char) : ℕ := c.toNat - 48

/-- Value of a most-significant-first digit string. -/
def digitsValN (l : List Char) : ℕ := l.foldl (fun a c => 10 * a + digVal c) 0

/-- ASCII lower-casing, used to model `re.I` literal matching. -/
def asciiLower (c : Char) : Char :=
  if 'A' ≤ c ∧ c ≤ 'Z' then Char.ofNat (c.toNat + 32) else c

/-- Python `str.upper`, modelled char-wise on ASCII and Latin-1 letters. -/
def pupper (c : Char) : Char :=
  if 'a' ≤ c ∧ c ≤ 'z' then Char.ofNat (c.toNat - 32)
  else if 'à' ≤ c ∧ c ≤ 'þ' ∧ c ≠ '÷' then Char.ofNat (c.toNat - 32)
  else c

/-- Python `str.lower`, modelled char-wise on ASCII and Latin-1 letters. -/
def plower (c : Char) : Char :=
  if 'A' ≤ c ∧ c ≤ 'Z' then Char.ofNat (c.toNat + 32)
  else if 'À' ≤ c ∧ c ≤ 'Þ' ∧ c ≠ '×' then Char.ofNat (c.toNat + 32)
  else c

/-- Python `str.strip()` on a char list. -/
def pstripL (l : List Char) : List Char :=
  ((l.dropWhile pws).reverse.dropWhile pws).reverse

/-- Python `str.strip()`. -/
def pstrip (s : String) : String := ⟨pstripL s.data⟩

/-- Normalise the `\r\n` and `\r` line terminators to `\n`. -/
def normNl : List Char → List Char
  | [] => []
  | '\x0d' :: '\n' :: r => '\n' :: normNl r
  | '\x0d' :: r => '\n' :: normNl r
  | c :: r => c :: normNl r

/-- Split at `\n`, no trailing empty line (Python `splitlines` shape). -/
def splitNl : List Char → List Char → List (List Char)
  | [], acc => if acc.isEmpty then [] else [acc.reverse]
  | c :: r, acc =>
    if c = '\n' then acc.reverse :: splitNl r [] else splitNl r (c :: acc)

/-- Python `texto.splitlines()` (the `\n`, `\r\n` and `\r` terminators). -/
def psplitlines (s : String) : List String :=
  (splitNl (normNl s.data) []).map (fun l => ⟨l⟩)

/-- Python `re.split(r"\s{2,}", s)`: split on maximal runs of 2+ whitespace
characters (a single whitespace character stays inside its part). -/
def split2wsAux : List Char → List Char → List Char → List (List Char)
  | [], pend, curRev => if 2 ≤ pend.length then [curRev.reverse, []] else [curRev.reverse ++ pend]
  | c :: rest, pend, curRev =>
    if pws c then split2wsAux rest (pend ++ [c]) curRev
    else if 2 ≤ pend.length then curRev.reverse :: split2wsAux rest [] [c]
    else split2wsAux rest [] (c :: (pend.reverse ++ curRev))

/-- Python `re.split(r"\s{2,}", ...)` on a char list, parts as char lists. -/
def split2ws (l : List Char) : List (List Char) := split2wsAux l [] []

/-- An exact scaled decimal: `m / 10 ^ s`.  Models the `float` values the
source parses out of locale-formatted strings (which it never computes
with, only stores). -/
structure Valor where
  m : ℤ
  s : ℕ
deriving DecidableEq, Repr

/-- The rational number a `Valor` denotes. -/
def Valor.q (v : Valor) : ℚ := (v.m : ℚ) / (10 : ℚ) ^ v.s

/-- The zero amount (`0.0` in the source). -/
def Valor.zero : Valor := ⟨0, 0⟩

/-- Consume a case-insensitive ASCII literal (given lower-case). -/
def eatCI : List Char → List Char → Option (List Char)
  | [], cs => some cs
  | _ :: _, [] => none
  | p :: ps, c :: cs => if asciiLower c = p then eatCI ps cs else none

/-- Consume one character satisfying `p`. -/
def eatClass (p : Char → Bool) : List Char → Option (List Char)
  | [] => none
  | c :: cs => if p c then some cs else none

/-- Consume a maximal nonempty run of characters satisfying `p`,
returning the run and the rest (greedy `[...]+`). -/
def eat1While (p : Char → Bool) (cs : List Char) : Option (List Char × List Char) :=
  let t := cs.takeWhile p
  if t.isEmpty then none else some (t, cs.drop t.length)

/-- Leftmost-match search: try a matcher at every position, left to right
(`re.search` semantics for the deterministic patterns used here). -/
def searchPos (f : List Char → Option α) : List Char → Option α
  | [] => f []
  | c :: r =>
    match f (c :: r) with
    | some v => some v
    | none => searchPos f r

/-- Python `float(...)` on a (already stripped) decimal literal:
optional sign, digits with at most one point, optional exponent.
The special forms `inf` / `nan` / underscore grouping are outside the
model; no string the program ever produces from a payslip uses them. -/
def pyExp : List Char → Option ℤ
  | [] => none
  | '+' :: r => if ¬ r.isEmpty ∧ r.all isDig then some (digitsValN r) else none
  | '-' :: r => if ¬ r.isEmpty ∧ r.all isDig then some (-(digitsValN r : ℤ)) else none
  | r => if r.all isDig then some (digitsValN r) else none

/-- Apply a parsed exponent to an unsigned mantissa (exact decimals). -/
def applyExp (m : ℕ) (s : ℕ) (e : ℤ) : Valor :=
  if 0 ≤ e then ⟨(m * 10 ^ e.toNat : ℕ), s⟩ else ⟨(m : ℤ), s + (-e).toNat⟩

/-- After the mantissa: end of string, or an exponent part. -/
def pyRest (m : ℕ) (s : ℕ) : List Char → Option Valor
  | [] => some ⟨(m : ℤ), s⟩
  | c :: r => if c = 'e' ∨ c = 'E' then (pyExp r).map (applyExp m s) else none

/-- Unsigned part of `float(...)`: `digits`, `digits.digits`, `.digits`
or `digits.`, then an optional exponent. -/
def pyCore (cs : List Char) : Option Valor :=
  let ip := cs.takeWhile isDig
  let r1 := cs.drop ip.length
  match r1 with
  | '.' :: r2 =>
    let fp := r2.takeWhile isDig
    let r3 := r2.drop fp.length
    if ip.isEmpty ∧ fp.isEmpty then none
    else pyRest (digitsValN ip * 10 ^ fp.length + digitsValN fp) fp.length r3
  | _ => if ip.isEmpty then none else pyRest (digitsValN ip) 0 r1

/-- Python `float(...)` (see `pyCore`); `none` is a raised `ValueError`. -/
def pyFloatDec : List Char → Option Valor
  | [] => none
  | c :: r =>
    if c = '+' then pyCore r
    else if c = '-' then (pyCore r).map (fun v => ⟨-v.m, v.s⟩)
    else pyCore (c :: r)

/-- Python `txt.replace(".", "").replace(",", ".")` from `normalizar_valor`. -/
def stripDotsRepl (s : String) : String :=
  ⟨(s.data.filter (fun c => c ≠ '.')).map (fun c => if c = ',' then '.' else c)⟩

/-- Function `normalizar_valor` (src/app.py:92-99): trim; empty, `-` and `0,00` are
confidently zero; otherwise drop thousands dots, turn the decimal comma
into a point and parse, with parse failure an unconfident zero. -/
def normalizar_valor (txt : String) : Valor × Bool :=
  let t := pstrip txt
  if t = "" ∨ t = "-" ∨ t = "0,00" then (Valor.zero, true)
  else
    match pyFloatDec (stripDotsRepl t).data with
    | some v => (v, true)
    | none => (Valor.zero, false)

/-- Separator class `[:\s]+` of `re_ref`. -/
def sepClass (c : Char) : Bool := c = ':' ∨ pws c

/-- The bracket class `[eê]` of `re_ref` under `re.I`. -/
def eClass (c : Char) : Bool := c = 'e' ∨ c = 'E' ∨ c = 'ê' ∨ c = 'Ê'

/-- Month-token class `[A-ZÇ]` of `re_ref` under `re.I`: because the pattern
is compiled with `re.IGNORECASE`, the class also matches the lower-case
letters `a-z` and `ç`. -/
def monthClass (c : Char) : Bool :=
  ('A' ≤ c ∧ c ≤ 'Z') ∨ ('a' ≤ c ∧ c ≤ 'z') ∨ c = 'Ç' ∨ c = 'ç'

/-- The month-token class as the spec reads it: upper-case letters only. -/
def monthClassSpec (c : Char) : Bool := ('A' ≤ c ∧ c ≤ 'Z') ∨ c = 'Ç'

/-- Exactly four digits (`\d{4}`; anything may follow, `re.search` is
unanchored). -/
def take4Digits : List Char → Option (List Char)
  | a :: b :: c :: d :: _ =>
    if isDig a ∧ isDig b ∧ isDig c ∧ isDig d then some [a, b, c, d] else none
  | _ => none

/-- Match `re_ref = Refer[eê]ncia[:\s]+([A-ZÇ]+)\/(\d{4})` (with `re.I`,
src/app.py:88) at the head of the text, generically in the month class
(the code uses `monthClass`, the spec reading `monthClassSpec`).
Returns (month group, year group). -/
def matchRefWith (mc : Char → Bool) (cs : List Char) : Option (String × String) :=
  (eatCI ['r', 'e', 'f', 'e', 'r'] cs).bind fun r1 =>
  (eatClass eClass r1).bind fun r2 =>
  (eatCI ['n', 'c', 'i', 'a'] r2).bind fun r3 =>
  (eat1While sepClass r3).bind fun x4 =>
  (eat1While mc x4.2).bind fun x5 =>
  (eatClass (fun c => c = '/') x5.2).bind fun r6 =>
  (take4Digits r6).map fun ds => (⟨x5.1⟩, ⟨ds⟩)

/-- Search `re_ref.search(ln)` as the code compiles it (case-insensitive class). -/
def searchRef (ln : String) : Option (String × String) :=
  searchPos (matchRefWith monthClass) ln.data

/-- Search `re_ref.search(ln)` as the claim describes it (upper-case month). -/
def searchRefSpec (ln : String) : Option (String × String) :=
  searchPos (matchRefWith monthClassSpec) ln.data

/-- The capture class `[\d\.,]` of `re_fgts`. -/
def fgtsClass (c : Char) : Bool := isDig c ∨ c = '.' ∨ c = ','

/-- Match `re_fgts = BASE\s+CALC\.\s+FGTS\s+([\d\.,]+)` (with `re.I`,
src/app.py:89) at the head of the text; returns the captured group. -/
def matchFgtsAt (cs : List Char) : Option String :=
  (eatCI ['b', 'a', 's', 'e'] cs).bind fun r1 =>
  (eat1While pws r1).bind fun x2 =>
  (eatCI ['c', 'a', 'l', 'c'] x2.2).bind fun r3 =>
  (eatClass (fun c => c = '.') r3).bind fun r4 =>
  (eat1While pws r4).bind fun x5 =>
  (eatCI ['f', 'g', 't', 's'] x5.2).bind fun r6 =>
  (eat1While pws r6).bind fun x7 =>
  (eat1While fgtsClass x7.2).map fun x8 => (⟨x8.1⟩ : String)

/-- Search `re_fgts.search(ln)`. -/
def searchFgts (ln : String) : Option String := searchPos matchFgtsAt ln.data

/-- Python `mes[:3].title()`: the month group is a single alphabetic word,
so title-casing upper-cases its first character and lower-cases the rest. -/
def title3 (l : List Char) : List Char :=
  match l.take 3 with
  | [] => []
  | c :: r => pupper c :: r.map plower

/-- One parsed payslip page: the tuple
`(mes_ano, proventos, fgts_base, avisos)` returned by
`extrair_recibo_texto`.  `proventos` is the insertion-ordered dict. -/
structure Recibo where
  mesAno : String
  proventos : List (String × Valor)
  fgtsBase : Valor
  avisos : List String
deriving DecidableEq, Repr

/-- Python dict assignment `d[k] = v`: update in place, keep key order,
append new keys at the end. -/
def dictInsert (k : String) (v : Valor) : List (String × Valor) → List (String × Valor)
  | [] => [(k, v)]
  | (k2, v2) :: r => if k2 = k then (k2, v) :: r else (k2, v2) :: dictInsert k v r

/-- A single apostrophe, as a string (used in the warning text). -/
def aspas : String := ⟨[Char.ofNat 39]⟩

/-- The warning built on src/app.py:129: period, then the quoted label,
then the dash, the text `valor não lido` and the raw amount. -/
def avisoValor (mesAno desc valorTxt : String) : String :=
  mesAno ++ ": " ++ aspas ++ desc ++ aspas ++ " – valor não lido (" ++ valorTxt ++ ")"

/-- Python `ln.strip().startswith("Descrição")`. -/
def isDescr (ln : String) : Bool := "Descrição".data.isPrefixOf (pstripL ln.data)

/-- Python `ln.strip().startswith("TOTAL DE PROVENTOS")`. -/
def isTotal (ln : String) : Bool := "TOTAL DE PROVENTOS".data.isPrefixOf (pstripL ln.data)

/-- Last element of a nonempty list, by its head and tail. -/
def lastOf (x : α) : List α → α
  | [] => x
  | y :: t => lastOf y t

/-- Process one line that sits inside the earnings table
(src/app.py:123-129): split on 2+ whitespace; with at least 2 parts the
upper-cased first part is the label, the last part the raw amount; the
amount is normalised and a warning recorded when not confident. -/
def procLinha (mesAno : String) (st : List (String × Valor) × List String) (ln : String) :
    List (String × Valor) × List String :=
  match split2ws (pstripL ln.data) with
  | p0 :: p1 :: ps =>
    let desc : String := ⟨p0.map pupper⟩
    let valorTxt : String := ⟨lastOf p1 ps⟩
    let vo := normalizar_valor valorTxt
    (dictInsert desc vo.1 st.1,
     if vo.2 then st.2 else st.2 ++ [avisoValor mesAno desc valorTxt])
  | _ => st

/-- The `lendo` loop of `extrair_recibo_texto` (src/app.py:115-129):
a line starting with `Descrição` turns reading on and is itself skipped
(`continue`); once reading, a line starting with `TOTAL DE PROVENTOS`
stops the whole scan (`break`); other lines are processed by `procLinha`. -/
def lerProvLoop (mesAno : String) :
    List String → Bool → List (String × Valor) × List String → List (String × Valor) × List String
  | [], _, st => st
  | ln :: rest, lendo, st =>
    if isDescr ln then lerProvLoop mesAno rest true st
    else if lendo then
      if isTotal ln then st
      else lerProvLoop mesAno rest true (procLinha mesAno st ln)
    else lerProvLoop mesAno rest false st

/-- The warning `f"{mes_ano}: Base FGTS não reconhecida ({...})"`. -/
def avisoNaoRec (mesAno g : String) : String :=
  mesAno ++ ": Base FGTS não reconhecida (" ++ g ++ ")"

/-- The warning `f"{mes_ano}: Base FGTS não encontrada"`. -/
def avisoNaoEnc (mesAno : String) : String := mesAno ++ ": Base FGTS não encontrada"

/-- The FGTS scan of `extrair_recibo_texto` (src/app.py:132-140): iterate
the lines in reverse, stop at the first `re_fgts` match and normalise its
group (warning when not confident); the for-else adds the not-found
warning when no line matches. -/
def acharFgts (mesAno : String) (linhas : List String) : Valor × List String :=
  match linhas.reverse.findSome? searchFgts with
  | some g =>
    let vo := normalizar_valor g
    (vo.1, if vo.2 then [] else [avisoNaoRec mesAno g])
  | none => (Valor.zero, [avisoNaoEnc mesAno])

/-- Function `extrair_recibo_texto` (src/app.py:101-142): search the first 8 lines
for `re_ref` (first match wins, `None` when absent), build the period key
from the title-cased 3-char month prefix and the year, then collect the
earnings table and the FGTS base. -/
def extrair_recibo_texto (texto : String) : Option Recibo :=
  let linhas := psplitlines texto
  match (linhas.take 8).findSome? searchRef with
  | none => none
  | some ma =>
    let mesAno : String := (⟨title3 ma.1.data⟩ : String) ++ "/" ++ ma.2
    let pa := lerProvLoop mesAno linhas false ([], [])
    let fa := acharFgts mesAno linhas
    some ⟨mesAno, pa.1, fa.1, pa.2 ++ fa.2⟩

/-- Python dict `pages.setdefault(page, []).append(text)`
(src/app.py:76-79): keep first-insertion key order, append to the
fragment list of the page. -/
def dictAppend (k : ℕ) (v : String) : List (ℕ × List String) → List (ℕ × List String)
  | [] => [(k, [v])]
  | (k2, vs) :: r => if k2 = k then (k2, vs ++ [v]) :: r else (k2, vs) :: dictAppend k v r

/-- Dict lookup `pages[p]` (for keys known to be present; `[]` otherwise). -/
def buscaPag (k : ℕ) : List (ℕ × List String) → List String
  | [] => []
  | (k2, vs) :: r => if k2 = k then vs else buscaPag k r

/-- The response post-processing of `extract_pdf_adobe` (src/app.py:76-83):
group the returned elements (page number, text fragment) by page number,
join each page's fragments with newlines in element order, and emit the
pages. The HTTP transport is external; its parsed `elements` array is the
input here. `sorted(pages)` sorts the distinct page numbers ascending. -/
def extract_pdf_adobe (elements : List (ℕ × String)) : List String :=
  let pages := elements.foldl (fun d e => dictAppend e.1 e.2 d) []
  (List.insertionSort (· ≤ ·) (pages.map Prod.fst)).map
    (fun p => String.intercalate "\n" (buscaPag p pages))

/-- Lexicographic order on char lists by code point - exactly how Python
compares strings. -/
def lexLe : List Char → List Char → Bool
  | [], _ => true
  | _ :: _, [] => false
  | a :: as, b :: bs =>
    if a.toNat < b.toNat then true
    else if b.toNat < a.toNat then false
    else lexLe as bs

/-- Python string `<=` as a relation on `String`. -/
def strLe (a b : String) : Prop := lexLe a.data b.data = true

instance : DecidableRel strLe := fun a b => instDecidableEqBool _ _

/-- Python `sorted(...)` on strings. -/
def sortStrings (l : List String) : List String := List.insertionSort strLe l

/-- One entry of the `registros` list of `processar_pdf`
(src/app.py:168-170): the dict
`{"Mês/Ano": ..., "Proventos": ..., "Base FGTS": ...}`. -/
structure Registro where
  mesAno : String
  proventos : List (String × Valor)
  fgts : Valor
deriving DecidableEq, Repr

/-- Forget the warnings of a parsed page (they go to the separate warning
list). -/
def toRegistro (r : Recibo) : Registro := ⟨r.mesAno, r.proventos, r.fgtsBase⟩

/-- The three accumulators of the page loop in `processar_pdf`:
`registros`, `rubricas`, `avisos_totais`.  The Python `rubricas` set is
modelled as the list of accumulated keys; its only use is
`sorted(rubricas)`, modelled as sort-of-dedup. -/
structure Estado where
  registros : List Registro
  rubricas : List String
  avisos : List String
deriving DecidableEq, Repr

/-- One iteration of the page loop (src/app.py:161-171 and 179-192):
parse the page text; skip `None`; skip a period already present in
`registros`; otherwise append the record, its labels and its warnings. -/
def passo (textos : List String) (acc : Estado) (i : ℕ) : Estado :=
  match extrair_recibo_texto (textos.getD i "") with
  | none => acc
  | some r =>
    if acc.registros.any (fun g => g.mesAno = r.mesAno) then acc
    else
      ⟨acc.registros ++ [toRegistro r],
       acc.rubricas ++ r.proventos.map Prod.fst,
       acc.avisos ++ r.avisos⟩

/-- The page loop over a list of 0-based page indices. -/
def processarTextos (textos : List String) (idxs : List ℕ) (acc : Estado) : Estado :=
  idxs.foldl (passo textos) acc

/-- Python `max(1, pagina_ini)`. -/
def clampLo (pi : ℤ) : ℤ := max 1 pi

/-- Python `min(total_pag, pagina_fim)`. -/
def clampHi (n : ℕ) (pf : ℤ) : ℤ := min (n : ℤ) pf

/-- Python `range(pagina_ini - 1, pagina_fim)` as 0-based indices (for the
clamped bounds the start is nonnegative). -/
def rangeIdx (lo hi : ℤ) : List ℕ :=
  (List.range (hi - (lo - 1)).toNat).map (fun k => (lo - 1).toNat + k)

/-- The page-index list a pass uses for a source of `n` pages. -/
def pageIdxs (n : ℕ) (pi pf : ℤ) : List ℕ := rangeIdx (clampLo pi) (clampHi n pf)

/-- Pass 1 of `processar_pdf` (src/app.py:148-171): the Adobe attempt.
`a = none` models `extract_pdf_adobe` raising (the `except` branch sets
`textos = []`).  When the text list is nonempty the page bounds are
clamped (and, as in the source, stay clamped for the fallback pass);
otherwise the loop body never runs. -/
def fase1 (a : Option (List String)) (pi pf : ℤ) : Estado × ℤ × ℤ :=
  let textos := a.getD []
  if textos.isEmpty then (⟨[], [], []⟩, pi, pf)
  else
    let lo := clampLo pi
    let hi := clampHi textos.length pf
    (processarTextos textos (rangeIdx lo hi) ⟨[], [], []⟩, lo, hi)

/-- Passes 1+2 of `processar_pdf` (src/app.py:148-192): when pass 1
produced no records, rerun the loop over the fallback per-page texts
(`page.extract_text()` / OCR, external I/O) with re-clamped bounds,
continuing with the same accumulators. -/
def fase2 (a : Option (List String)) (fb : List String) (pi pf : ℤ) : Estado :=
  let x := fase1 a pi pf
  if x.1.registros.isEmpty then
    processarTextos fb (pageIdxs fb.length x.2.1 x.2.2) x.1
  else x.1

/-- The English month abbreviations that `%b` accepts under the default
`C` locale (pandas/`strptime` build the month names from the locale, and
the program never calls `setlocale`). -/
def mesesEn : List (List Char) :=
  ["jan".data, "feb".data, "mar".data, "apr".data, "may".data, "jun".data,
   "jul".data, "aug".data, "sep".data, "oct".data, "nov".data, "dec".data]

/-- 1-based index of a lowered token in the `%b` month list. -/
def mesEnNum (m : List Char) : Option ℕ :=
  ((mesesEn.indexOf? m).map (· + 1))

/-- Pandas `pd.to_datetime(s, format="%b/%Y")` (src/app.py:207): the whole string
must be an abbreviated month (case-insensitively, from the locale's -
i.e. English - names), a slash, and a 4-digit year; anything else raises.
Returns (year, month). -/
def parseDataEn (s : String) : Option (ℕ × ℕ) :=
  let m := s.data.takeWhile (fun c => c ≠ '/')
  match s.data.drop m.length with
  | '/' :: ds =>
    if ds.length = 4 ∧ ds.all isDig then
      (mesEnNum (m.map asciiLower)).map (fun mn => (digitsValN ds, mn))
    else none
  | _ => none

/-- Sort key: the calendar date (day 1) as a month count. -/
def dataKey (s : String) : ℕ :=
  match parseDataEn s with
  | some ym => ym.1 * 12 + ym.2
  | none => 0

/-- Row order of `df.sort_values("Data")`. -/
def regRel (a b : Registro) : Prop := dataKey a.mesAno ≤ dataKey b.mesAno

instance : DecidableRel regRel := fun a b => Nat.decLe _ _

instance : IsTotal Registro regRel := ⟨fun a b => Nat.le_total _ _⟩

instance : IsTrans Registro regRel := ⟨fun _ _ _ => Nat.le_trans⟩

/-- Lines `df["Data"] = pd.to_datetime(...); df.sort_values("Data")`
(src/app.py:207-208): `none` models the `ValueError` raised when any
period fails `%b/%Y`.  Within one run all period keys are distinct and
canonically cased, so distinct rows never tie and sort stability is
irrelevant. -/
def sortRegsByData (regs : List Registro) : Option (List Registro) :=
  if regs.all (fun r => (parseDataEn r.mesAno).isSome) then
    some (List.insertionSort regRel regs)
  else none

/-- One spreadsheet cell: the period column holds a string, every other
column a number. -/
inductive Cell where
  | str (s : String)
  | num (v : Valor)
deriving DecidableEq, Repr

/-- The final DataFrame: column names and rows of cells. -/
structure Tabela where
  cols : List String
  rows : List (List Cell)
deriving DecidableEq, Repr

/-- Python dict method get(rub, 0.0) on the earnings of a record. -/
def buscaValor (k : String) : List (String × Valor) → Valor
  | [] => Valor.zero
  | (k2, v) :: r => if k2 = k then v else buscaValor k r

/-- One output row (src/app.py:200-204 and the column reorder on 209):
period first, then every label column (0.0 when the record lacks the
label), then the FGTS base. -/
def mkRow (rubs : List String) (r : Registro) : List Cell :=
  Cell.str r.mesAno :: rubs.map (fun rub => Cell.num (buscaValor rub r.proventos)) ++ [Cell.num r.fgts]

/-- DataFrame assembly of `processar_pdf` (src/app.py:197-209): sort the
label set, build one row per record, sort rows by the parsed date
(raising - `none` - when a period key fails `%b/%Y`). -/
def montarTabela (acc : Estado) : Option Tabela :=
  let rubs := sortStrings acc.rubricas.dedup
  (sortRegsByData acc.registros).map fun regsSorted =>
    ⟨"Mês/Ano" :: rubs ++ ["Base FGTS"], regsSorted.map (mkRow rubs)⟩

/-- The return of `processar_pdf`: the empty-DataFrame early return
(src/app.py:194-195) or the assembled table, paired with the collected
warnings.  `none` is an uncaught exception. -/
def saida (acc : Estado) : Option (Tabela × List String) :=
  if acc.registros.isEmpty then some (⟨[], []⟩, acc.avisos)
  else (montarTabela acc).map (fun t => (t, acc.avisos))

/-- Function `processar_pdf` (src/app.py:147-210).  `a` is the Adobe
text-per-page result (`none` when the call raised), `fb` the per-page
native/OCR fallback texts, `pi`/`pf` the 1-based inclusive page range. -/
def processar_pdf (a : Option (List String)) (fb : List String) (pi pf : ℤ) :
    Option (Tabela × List String) :=
  saida (fase2 a fb pi pf)

/-- The suffix of a list after its first element satisfying `p`
(`none` when no element does). -/
def afterFirst (p : α → Bool) : List α → Option (List α)
  | [] => none
  | x :: xs => if p x then some xs else afterFirst p xs

/-- The earnings-table slice as the claim describes it: every line
strictly after the first `Descrição` line and strictly before the first
subsequent `TOTAL DE PROVENTOS` line (to the end when absent). -/
def linhasTabelaClaim (linhas : List String) : List String :=
  match afterFirst isDescr linhas with
  | none => []
  | some rest => rest.takeWhile (fun ln => ¬ isTotal ln)

/-- The earnings-table slice as the code actually reads it: as
`linhasTabelaClaim`, but lines that themselves start with `Descrição`
re-trigger the `continue` branch and are skipped. -/
def linhasTabela (linhas : List String) : List String :=
  (linhasTabelaClaim linhas).filter (fun ln => ¬ isDescr ln)

/-- Earnings extraction described as a fold over an explicit table slice
(claim reading: every line of the slice is processed). -/
def proventosSpecClaim (mesAno : String) (linhas : List String) :
    List (String × Valor) × List String :=
  (linhasTabelaClaim linhas).foldl (procLinha mesAno) ([], [])

/-- Earnings extraction described as a fold over the corrected table
slice (inner `Descrição` lines skipped). -/
def proventosSpec (mesAno : String) (linhas : List String) :
    List (String × Valor) × List String :=
  (linhasTabela linhas).foldl (procLinha mesAno) ([], [])

/-- The FGTS capture of the physically last line matching `re_fgts`
(how the claim describes the reverse scan). -/
def ultimaFgts (linhas : List String) : Option String :=
  (linhas.filterMap searchFgts).getLast?

/-- The parsed records of the pages at the given indices, in page order
(pages whose parse returns `None` contribute nothing). -/
def parsedRecs (textos : List String) (idxs : List ℕ) : List Recibo :=
  idxs.filterMap (fun i => extrair_recibo_texto (textos.getD i ""))

/-- First-occurrence-wins deduplication by period key, seeded with the
records already kept (the loop checks the new period against
`registros`, so the seen-set is the kept-record list itself). -/
def kept : List Recibo → List Registro → List Recibo
  | [], _ => []
  | r :: rest, vistos =>
    if vistos.any (fun g => g.mesAno = r.mesAno) then kept rest vistos
    else r :: kept rest (vistos ++ [toRegistro r])

/-- The parsed records of the pass whose records reach the output: the
Adobe pass when it parsed anything, otherwise the fallback pass (run
with the bounds as pass 1 left them). -/
def parsedFinal (a : Option (List String)) (fb : List String) (pi pf : ℤ) : List Recibo :=
  let textos := a.getD []
  let p1 := if textos.isEmpty then [] else parsedRecs textos (pageIdxs textos.length pi pf)
  if p1.isEmpty then
    parsedRecs fb (pageIdxs fb.length (fase1 a pi pf).2.1 (fase1 a pi pf).2.2)
  else p1

/-- The records the run keeps, in output order before date sorting. -/
def keptFinal (a : Option (List String)) (fb : List String) (pi pf : ℤ) : List Recibo :=
  kept (parsedFinal a fb pi pf) []

/-- Pure fallback-only processing: the page loop over the native/OCR
texts with freshly clamped bounds, then the output assembly. -/
def saidaFallback (fb : List String) (pi pf : ℤ) : Option (Tabela × List String) :=
  saida (processarTextos fb (pageIdxs fb.length pi pf) ⟨[], [], []⟩)

/-- The positional contract of claim C6: entry `i` of the returned list is the
concatenated text of document page `i + 1`. -/
def posContract (es : List (ℕ × String)) : Prop :=
  ∀ i (hi : i < (extract_pdf_adobe es).length),
    (extract_pdf_adobe es).get ⟨i, hi⟩ =
      String.intercalate "\n" ((es.filter (fun e => e.1 = i + 1)).map Prod.snd)

/-- The remote post-processing as the (amended) spec sentence describes
it: the distinct page numbers, ascending, each mapped to its fragments
joined in element order. -/
def adobeSpecDesc (es : List (ℕ × String)) : List String :=
  (List.insertionSort (· ≤ ·) (es.map Prod.fst).dedup).map
    (fun p => String.intercalate "\n" ((es.filter (fun e => e.1 = p)).map Prod.snd))

/-- The column list claim C9 describes: period first, the alphabetically
sorted union of the labels of all PARSED records (kept or not), the tax
base last. -/
def colunasDeParsed (parsed : List Recibo) : List String :=
  "Mês/Ano" :: sortStrings ((parsed.map (fun r => r.proventos.map Prod.fst)).flatten).dedup
    ++ ["Base FGTS"]

/-- Scenario-A page (spec §8), period May 2024. -/
def paginaA : String :=
  "Referência: MAIO/2024\nDescrição   Valor\nSALARIO   3000,00\nBONUS   500,00\nTOTAL DE PROVENTOS   3500,00\nBASE CALC. FGTS 3.000,00"

/-- A page whose period (January) survives `%b` parsing, one label. -/
def paginaJan1 : String :=
  "Referência: JANEIRO/2024\nDescrição   Valor\nSALARIO   1000,00\nTOTAL DE PROVENTOS   1000,00\nBASE CALC. FGTS 1000,00"

/-- A second January page: same period, an extra `BONUS` label and an
unreadable amount (so it carries a field warning). -/
def paginaJan2 : String :=
  "Referência: JANEIRO/2024\nDescrição   Valor\nSALARIO   1000,00\nBONUS   abc\nTOTAL DE PROVENTOS   1200,00\nBASE CALC. FGTS 1200,00"

/-- A March page (a second distinct, `%b`-parsable period). -/
def paginaMar : String :=
  "Referência: MARÇO/2024\nDescrição   Valor\nFERIAS   300,00\nTOTAL DE PROVENTOS   300,00\nBASE CALC. FGTS 300,00"

/-- A page with a lower-case month token after the header word. -/
def paginaMinuscula : String := "Referência: maio/2024"

/-- A page with an inner `Descrição` line inside the earnings table. -/
def paginaDescrInterna : String :=
  "Referência: JANEIRO/2024\nDescrição   Valor\nDescrição A  5,00\nTOTAL DE PROVENTOS"

/-- A decimal digit as a character. -/
def digitChar (d : Fin 10) : Char := Char.ofNat (48 + d.val)

/-- Thousands grouping: on a least-significant-digit-first list, insert
a dot after every complete group of three digits. -/
def group3Rev : List Char → List Char
  | a :: b :: c :: d :: rest => a :: b :: c :: '.' :: group3Rev (d :: rest)
  | l => l

/-- A locale-formatted amount: the integer digits grouped with `.`
thousands separators, then (when a decimal part is present) the `,`
decimal separator and the decimal digits. -/
def locFormat (ds dec : List (Fin 10)) : String :=
  ⟨(group3Rev (ds.map digitChar).reverse).reverse ++
    (if dec.isEmpty then [] else ',' :: dec.map digitChar)⟩

/-- Numeric value of a digit list, most significant first. -/
def natDe (ds : List (Fin 10)) : ℕ := ds.foldl (fun a d => 10 * a + d.val) 0

/-- The rational number a locale-formatted amount denotes. -/
def locVal (ds dec : List (Fin 10)) : ℚ :=
  (natDe ds : ℚ) + (natDe dec : ℚ) / (10 : ℚ) ^ dec.length

/-- The table the run over the January and March pages produces. -/
def tabelaJanMar : Tabela :=
  ⟨["Mês/Ano", "FERIAS", "SALARIO", "Base FGTS"],
   [[Cell.str "Jan/2024", Cell.num ⟨0, 0⟩, Cell.num ⟨100000, 2⟩, Cell.num ⟨100000, 2⟩],
    [Cell.str "Mar/2024", Cell.num ⟨30000, 2⟩, Cell.num ⟨0, 0⟩, Cell.num ⟨30000, 2⟩]]⟩

theorem descr_not_total {ln : String} (h : isDescr ln = true) : isTotal ln = false := by
  unfold isDescr at h
  unfold isTotal
  by_contra hT
  rw [Bool.not_eq_false, List.isPrefixOf_iff_prefix] at hT
  rw [ List.isPrefixOf_iff_prefix] at h
  have hp : "Descrição".data <+: "TOTAL DE PROVENTOS".data :=
    List.prefix_of_prefix_length_le h hT (by decide)
  exact absurd hp (by decide)

theorem lerProvLoop_true (mesAno : String) (linhas : List String)
    (st : List (String × Valor) × List String) :
    lerProvLoop mesAno linhas true st =
      ((linhas.takeWhile (fun ln => ¬ isTotal ln)).filter (fun ln => ¬ isDescr ln)).foldl
        (procLinha mesAno) st := by
  induction linhas generalizing st with
  | nil => simp [lerProvLoop]
  | cons ln rest ih =>
    by_cases hd : isDescr ln
    · have ht := descr_not_total hd
      simp [lerProvLoop, hd, ht, ih]
    · by_cases ht : isTotal ln
      · simp [lerProvLoop, hd, ht]
      · simp [lerProvLoop, hd, ht, ih]

theorem lerProvLoop_false (mesAno : String) (linhas : List String)
    (st : List (String × Valor) × List String) :
    lerProvLoop mesAno linhas false st =
      (match afterFirst isDescr linhas with
       | none => st
       | some rest => lerProvLoop mesAno rest true st) := by
  induction linhas with
  | nil => simp [lerProvLoop, afterFirst]
  | cons ln rest ih =>
    by_cases hd : isDescr ln
    · simp [lerProvLoop, afterFirst, hd]
    · simp [lerProvLoop, afterFirst, hd, ih]

theorem lerProvLoop_spec (mesAno : String) (linhas : List String) :
    lerProvLoop mesAno linhas false ([], []) = proventosSpec mesAno linhas := by
  rw [lerProvLoop_false]
  unfold proventosSpec linhasTabela linhasTabelaClaim
  rcases h : afterFirst isDescr linhas with _ | rest
  · simp
  · simp [lerProvLoop_true]

theorem findSome?_reverse (f : α → Option β) (l : List α) :
    l.reverse.findSome? f = (l.filterMap f).getLast? := by
  induction l with
  | nil => rfl
  | cons a t ih =>
    rw [List.reverse_cons, List.findSome?_append, ih, List.filterMap_cons]
    rcases hf : f a with _ | b
    · rcases ht : (t.filterMap f).getLast? with _ | v
      · simp [List.findSome?, hf, ht]
      · simp [ht]
    · rcases ht : t.filterMap f with _ | ⟨w, ws⟩
      · simp [ht, List.findSome?, hf]
      · rcases hl : (w :: ws).getLast? with _ | v
        · rw [List.getLast?_eq_none_iff] at hl
          exact absurd hl (by simp)
        · simp [hl]

theorem findSome?_first_index (f : α → Option β) (l : List α) (i : ℕ) (hi : i < l.length)
    (hbefore : ∀ j (hj : j < i), f (l.get ⟨j, lt_trans hj hi⟩) = none) {b : β}
    (hmatch : f (l.get ⟨i, hi⟩) = some b) : l.findSome? f = some b := by
  induction l generalizing i with
  | nil => simp at hi
  | cons a t ih =>
    cases i with
    | zero =>
      simp only [List.get] at hmatch
      simp [List.findSome?, hmatch]
    | succ i0 =>
      have h0 : f a = none := hbefore 0 (Nat.succ_pos i0)
      simp only [List.findSome?, h0]
      exact ih i0 (Nat.lt_of_succ_lt_succ hi)
        (fun j hj => hbefore (j + 1) (Nat.succ_lt_succ hj)) hmatch

theorem passo_none {textos : List String} {i : ℕ} {acc : Estado}
    (h : extrair_recibo_texto (textos.getD i "") = none) : passo textos acc i = acc := by
  unfold passo
  rw [h]

theorem passo_dup {textos : List String} {i : ℕ} {acc : Estado} {r : Recibo}
    (h : extrair_recibo_texto (textos.getD i "") = some r)
    (hd : acc.registros.any (fun g => g.mesAno = r.mesAno) = true) :
    passo textos acc i = acc := by
  unfold passo
  rw [h]
  simp [hd]

theorem passo_new {textos : List String} {i : ℕ} {acc : Estado} {r : Recibo}
    (h : extrair_recibo_texto (textos.getD i "") = some r)
    (hd : acc.registros.any (fun g => g.mesAno = r.mesAno) = false) :
    passo textos acc i =
      ⟨acc.registros ++ [toRegistro r],
       acc.rubricas ++ r.proventos.map Prod.fst,
       acc.avisos ++ r.avisos⟩ := by
  unfold passo
  rw [h]
  simp [hd]

theorem parsedRecs_cons (textos : List String) (i : ℕ) (rest : List ℕ) :
    parsedRecs textos (i :: rest) =
      (match extrair_recibo_texto (textos.getD i "") with
       | none => parsedRecs textos rest
       | some r => r :: parsedRecs textos rest) := by
  simp only [parsedRecs, List.filterMap_cons]
  rcases extrair_recibo_texto (textos.getD i "") with _ | r <;> rfl

theorem processarTextos_spec (textos : List String) (idxs : List ℕ) (acc : Estado) :
    processarTextos textos idxs acc =
      ⟨acc.registros ++ (kept (parsedRecs textos idxs) acc.registros).map toRegistro,
       acc.rubricas ++
         ((kept (parsedRecs textos idxs) acc.registros).map
           (fun r => r.proventos.map Prod.fst)).flatten,
       acc.avisos ++
         ((kept (parsedRecs textos idxs) acc.registros).map Recibo.avisos).flatten⟩ := by
  induction idxs generalizing acc with
  | nil => simp [processarTextos, parsedRecs, kept]
  | cons i rest ih =>
    have hstep : processarTextos textos (i :: rest) acc =
        processarTextos textos rest (passo textos acc i) := rfl
    rw [hstep]
    rcases hx : extrair_recibo_texto (textos.getD i "") with _ | r
    · rw [passo_none hx, ih, parsedRecs_cons, hx]
    · by_cases hdup : acc.registros.any (fun g => g.mesAno = r.mesAno) = true
      · rw [passo_dup hx hdup, ih, parsedRecs_cons, hx]
        simp only [kept, hdup, if_true]
      · rw [Bool.not_eq_true] at hdup
        rw [passo_new hx hdup, ih, parsedRecs_cons, hx]
        simp only [kept, hdup, Bool.false_eq_true, if_false]
        simp [toRegistro, List.map_append, List.append_assoc]

theorem kept_nil_iff (l : List Recibo) : kept l [] = [] ↔ l = [] := by
  cases l with
  | nil => simp [kept]
  | cons r rest => simp [kept]

theorem fase2_none (fb : List String) (pi pf : ℤ) :
    fase2 none fb pi pf = processarTextos fb (pageIdxs fb.length pi pf) ⟨[], [], []⟩ := rfl

theorem parsedFinal_none (fb : List String) (pi pf : ℤ) :
    parsedFinal none fb pi pf = parsedRecs fb (pageIdxs fb.length pi pf) := rfl

theorem fase1_some (textos : List String) (h : textos.isEmpty = false) (pi pf : ℤ) :
    fase1 (some textos) pi pf =
      (processarTextos textos (pageIdxs textos.length pi pf) ⟨[], [], []⟩,
       clampLo pi, clampHi textos.length pf) := by
  unfold fase1
  simp [h, pageIdxs]

theorem fase2_spec (a : Option (List String)) (fb : List String) (pi pf : ℤ) :
    fase2 a fb pi pf =
      ⟨(keptFinal a fb pi pf).map toRegistro,
       ((keptFinal a fb pi pf).map (fun r => r.proventos.map Prod.fst)).flatten,
       ((keptFinal a fb pi pf).map Recibo.avisos).flatten⟩ := by
  have hgen : ∀ (src : List String) (idxs : List ℕ),
      processarTextos src idxs ⟨[], [], []⟩ =
        ⟨(kept (parsedRecs src idxs) []).map toRegistro,
         ((kept (parsedRecs src idxs) []).map (fun r => r.proventos.map Prod.fst)).flatten,
         ((kept (parsedRecs src idxs) []).map Recibo.avisos).flatten⟩ := by
    intro src idxs
    rw [processarTextos_spec]
    simp
  rcases a with _ | textos
  · rw [fase2_none, hgen]
    unfold keptFinal
    rw [parsedFinal_none]
  · by_cases ht : textos.isEmpty
    · have htnil : textos = [] := by
        rwa [List.isEmpty_iff] at ht
      subst htnil
      have h2 : fase2 (some []) fb pi pf =
          processarTextos fb (pageIdxs fb.length pi pf) ⟨[], [], []⟩ := rfl
      have hpf : parsedFinal (some []) fb pi pf =
          parsedRecs fb (pageIdxs fb.length pi pf) := rfl
      rw [h2, hgen]
      unfold keptFinal
      rw [hpf]
    · rw [Bool.not_eq_true] at ht
      have h1 := fase1_some textos ht pi pf
      have hpf : parsedFinal (some textos) fb pi pf =
          (if (parsedRecs textos (pageIdxs textos.length pi pf)).isEmpty then
            parsedRecs fb (pageIdxs fb.length (clampLo pi) (clampHi textos.length pf))
          else parsedRecs textos (pageIdxs textos.length pi pf)) := by
        unfold parsedFinal
        rw [h1]
        simp only [Option.getD_some, ht, Bool.false_eq_true, if_false, pageIdxs]
      have h2 : fase2 (some textos) fb pi pf =
          (if ((processarTextos textos (pageIdxs textos.length pi pf)
                 ⟨[], [], []⟩).registros).isEmpty then
            processarTextos fb
              (pageIdxs fb.length (clampLo pi) (clampHi textos.length pf))
              (processarTextos textos (pageIdxs textos.length pi pf) ⟨[], [], []⟩)
          else processarTextos textos (pageIdxs textos.length pi pf) ⟨[], [], []⟩) := by
        unfold fase2
        rw [h1]
      rcases hp1 : parsedRecs textos (pageIdxs textos.length pi pf) with _ | ⟨r0, rrest⟩
      · have hacc : processarTextos textos (pageIdxs textos.length pi pf) ⟨[], [], []⟩ =
            (⟨[], [], []⟩ : Estado) := by
          rw [hgen, hp1]
          simp [kept]
        rw [h2, hacc]
        simp only [List.isEmpty_nil, if_true]
        rw [hgen]
        unfold keptFinal
        rw [hpf, hp1]
        simp
      · have hne : (parsedRecs textos (pageIdxs textos.length pi pf)).isEmpty = false := by
          rw [hp1]
          rfl
        have hacc2 : ((processarTextos textos (pageIdxs textos.length pi pf)
            ⟨[], [], []⟩).registros).isEmpty = false := by
          rw [hgen]
          simp only []
          rw [hp1]
          simp [kept]
        rw [h2, hacc2]
        simp only [Bool.false_eq_true, if_false]
        rw [hgen]
        unfold keptFinal
        rw [hpf, hne]
        simp only [Bool.false_eq_true, if_false]

theorem kept_filter_mem (l : List Recibo) (vis : List Registro) (p : String)
    (h : vis.any (fun g => g.mesAno = p) = true) :
    (kept l vis).filter (fun r => r.mesAno = p) = [] := by
  induction l generalizing vis with
  | nil => simp [kept]
  | cons r rest ih =>
    by_cases hd : vis.any (fun g => g.mesAno = r.mesAno) = true
    · simp only [kept, hd, if_true]
      exact ih vis h
    · rw [Bool.not_eq_true] at hd
      simp only [kept, hd, Bool.false_eq_true, if_false]
      have hne : (r.mesAno = p) = False := by
        by_contra hcon
        have he : r.mesAno = p := by
          by_cases hq : r.mesAno = p
          · exact hq
          · exact absurd (eq_false hq) hcon
        rw [he, h] at hd
        exact Bool.false_ne_true hd.symm
      rw [List.filter_cons_of_neg (by simp [hne])]
      apply ih
      rw [List.any_append, h]
      rfl

theorem kept_filter_new (l : List Recibo) (vis : List Registro) (p : String)
    (h : vis.any (fun g => g.mesAno = p) = false) :
    (kept l vis).filter (fun r => r.mesAno = p) =
      (l.filter (fun r => r.mesAno = p)).take 1 := by
  induction l generalizing vis with
  | nil => simp [kept]
  | cons r rest ih =>
    by_cases hd : vis.any (fun g => g.mesAno = r.mesAno) = true
    · have hne : ¬ (r.mesAno = p) := by
        intro he
        rw [he, h] at hd
        exact Bool.false_ne_true hd
      simp only [kept, hd, if_true]
      rw [ih vis h, List.filter_cons_of_neg (by simp [hne])]
    · rw [Bool.not_eq_true] at hd
      simp only [kept, hd, Bool.false_eq_true, if_false]
      by_cases hp : r.mesAno = p
      · rw [List.filter_cons_of_pos (by simp [hp]),
          List.filter_cons_of_pos (by simp [hp]),
          kept_filter_mem rest (vis ++ [toRegistro r]) p
            (by rw [List.any_append, h]; simp [toRegistro, hp])]
        simp
      · rw [List.filter_cons_of_neg (by simp [hp]),
          List.filter_cons_of_neg (by simp [hp])]
        exact ih (vis ++ [toRegistro r])
          (by rw [List.any_append, h]; simp [toRegistro, hp])

theorem find?_filter_head? (l : List α) (p : α → Bool) : l.find? p = (l.filter p).head? := by
  induction l with
  | nil => rfl
  | cons a t ih =>
    by_cases h : p a = true
    · rw [List.find?_cons_of_pos _ h, List.filter_cons_of_pos h]
      rfl
    · rw [Bool.not_eq_true] at h
      rw [List.find?_cons_of_neg _ (by simp [h]), List.filter_cons_of_neg (by simp [h]), ih]

theorem rows_filter_period (rubs : List String) (regs : List Registro) (p : String) :
    (regs.map (mkRow rubs)).filter (fun row => row.head? = some (Cell.str p)) =
      (regs.filter (fun g => g.mesAno = p)).map (mkRow rubs) := by
  induction regs with
  | nil => rfl
  | cons g t ih =>
    have hhead : (mkRow rubs g).head? = some (Cell.str g.mesAno) := rfl
    by_cases hp : g.mesAno = p
    · rw [List.map_cons, List.filter_cons_of_pos (by simp [hhead, hp]),
        List.filter_cons_of_pos (by simp [hp]), List.map_cons, ih]
    · rw [List.map_cons, List.filter_cons_of_neg (by simp [hhead, hp]),
        List.filter_cons_of_neg (by simp [hp]), ih]

theorem saida_avisos {acc : Estado} {tab : Tabela} {w : List String}
    (h : saida acc = some (tab, w)) : w = acc.avisos := by
  unfold saida at h
  by_cases he : acc.registros.isEmpty = true
  · rw [if_pos he] at h
    injection h with h1
    injection h1 with hA hB
    exact hB.symm
  · rw [if_neg he] at h
    rcases Option.map_eq_some'.mp h with ⟨t, ht, hw⟩
    injection hw with hA hB
    exact hB.symm

theorem saida_tabela {acc : Estado} {tab : Tabela} {w : List String}
    (h : saida acc = some (tab, w)) (hne : acc.registros.isEmpty = false) :
    montarTabela acc = some tab := by
  unfold saida at h
  rw [if_neg (by rw [hne]; exact Bool.false_ne_true)] at h
  rcases Option.map_eq_some'.mp h with ⟨t, ht, hw⟩
  injection hw with hA hB
  rw [ht, hA]

theorem montarTabela_some {acc : Estado} {tab : Tabela} (h : montarTabela acc = some tab) :
    acc.registros.all (fun r => (parseDataEn r.mesAno).isSome) = true ∧
    tab = ⟨"Mês/Ano" :: sortStrings acc.rubricas.dedup ++ ["Base FGTS"],
           (List.insertionSort regRel acc.registros).map
             (mkRow (sortStrings acc.rubricas.dedup))⟩ := by
  unfold montarTabela sortRegsByData at h
  by_cases hall : acc.registros.all (fun r => (parseDataEn r.mesAno).isSome) = true
  · rw [if_pos hall] at h
    refine ⟨hall, ?_⟩
    rw [Option.map_some'] at h
    injection h with h1
    exact h1.symm
  · rw [if_neg hall] at h
    exact absurd h (by simp)

/-- C7: the claim reads "every non-empty output table is sorted by the
calendar date implied by the period key", the spec's Scenario A expecting
the row `Mai/2024`.  The code computes the sort key with
`pd.to_datetime(..., format="%b/%Y")`, whose month names under the
program's (default, `C`) locale are the English abbreviations; the
Portuguese `Mai` is not among them, so the Scenario-A document makes
`processar_pdf` raise `ValueError` (here: return `none`) instead of
returning the table - the code, not the claim, is wrong. -/
theorem claim_C7_locale_bug :
    extrair_recibo_texto paginaA ≠ none ∧
    (fase2 (some [paginaA]) [] 1 1).registros ≠ [] ∧
    parseDataEn "Mai/2024" = none ∧
    processar_pdf (some [paginaA]) [] 1 1 = none := by
  exact ⟨by decide, by decide, by decide, by decide⟩

/-- C10: the warning list of the aggregator is exactly the concatenation of
the warnings of the kept (first-per-period) records, in page order -
warnings from a page dropped as a duplicate period never reach it. -/
theorem claim_C10_avisos_mantidos (a : Option (List String)) (fb : List String)
    (pi pf : ℤ) (tab : Tabela) (w : List String)
    (h : processar_pdf a fb pi pf = some (tab, w)) :
    w = ((keptFinal a fb pi pf).map Recibo.avisos).flatten := by
  unfold processar_pdf at h
  rw [fase2_spec] at h
  exact saida_avisos h

/-- C10 witness: two pages with the same period; the dropped second page
carries an unreadable-amount warning, and the output warning list is
empty. -/
theorem claim_C10_avisos_mantidos_witness :
    (∃ tab w, processar_pdf (some [paginaJan1, paginaJan2]) [] 1 2 = some (tab, w) ∧
      w = ((keptFinal (some [paginaJan1, paginaJan2]) [] 1 2).map Recibo.avisos).flatten) ∧
    ((keptFinal (some [paginaJan1, paginaJan2]) [] 1 2).map Recibo.avisos).flatten = [] ∧
    (extrair_recibo_texto paginaJan2).elim [] Recibo.avisos ≠ [] := by
  refine ⟨?_, by decide, by decide⟩
  obtain ⟨tab, w, hw⟩ : ∃ tab w,
      processar_pdf (some [paginaJan1, paginaJan2]) [] 1 2 = some (tab, w) := by
    rcases hp : processar_pdf (some [paginaJan1, paginaJan2]) [] 1 2 with _ | x
    · exact absurd hp (by decide)
    · exact ⟨x.1, x.2, by rfl⟩
  exact ⟨tab, w, hw, claim_C10_avisos_mantidos _ _ _ _ _ _ hw⟩

theorem extrair_none_iff (texto : String) :
    extrair_recibo_texto texto = none ↔
      ((psplitlines texto).take 8).findSome? searchRef = none := by
  simp only [extrair_recibo_texto]
  rcases h : ((psplitlines texto).take 8).findSome? searchRef with _ | ma
  · simp
  · simp

theorem extrair_found (texto : String) (m y : String)
    (h : ((psplitlines texto).take 8).findSome? searchRef = some (m, y)) :
    ∃ r, extrair_recibo_texto texto = some r ∧
      r.mesAno = (⟨title3 m.data⟩ : String) ++ "/" ++ y := by
  simp only [extrair_recibo_texto]
  rw [h]
  exact ⟨_, rfl, rfl⟩

theorem extrair_components (texto : String) (r : Recibo)
    (h : extrair_recibo_texto texto = some r) :
    r.proventos = (lerProvLoop r.mesAno (psplitlines texto) false ([], [])).1 ∧
    r.fgtsBase = (acharFgts r.mesAno (psplitlines texto)).1 ∧
    r.avisos = (lerProvLoop r.mesAno (psplitlines texto) false ([], [])).2 ++
      (acharFgts r.mesAno (psplitlines texto)).2 := by
  simp only [extrair_recibo_texto] at h
  rcases hm : ((psplitlines texto).take 8).findSome? searchRef with _ | ma
  · rw [hm] at h
    exact absurd h (by simp)
  · rw [hm] at h
    injection h with h1
    subst h1
    exact ⟨rfl, rfl, rfl⟩

theorem acharFgts_some (mesAno : String) (linhas : List String) (g : String)
    (h : ultimaFgts linhas = some g) :
    acharFgts mesAno linhas =
      ((normalizar_valor g).1,
       if (normalizar_valor g).2 then [] else [avisoNaoRec mesAno g]) := by
  unfold acharFgts
  rw [show linhas.reverse.findSome? searchFgts = some g from by
    rw [findSome?_reverse]; exact h]

theorem acharFgts_none (mesAno : String) (linhas : List String)
    (h : ultimaFgts linhas = none) :
    acharFgts mesAno linhas = (Valor.zero, [avisoNaoEnc mesAno]) := by
  unfold acharFgts
  rw [show linhas.reverse.findSome? searchFgts = none from by
    rw [findSome?_reverse]; exact h]

/-- C4: the tax base comes from the physically last line matching
`re_fgts` (equivalently: the first match when scanning in reverse),
normalised, with the `não reconhecida` warning appended when
normalisation is not confident; when no line matches anywhere the base
defaults to zero and the warning `<period>: Base FGTS não encontrada` is
appended. -/
theorem claim_C4_fgts (texto : String) (r : Recibo)
    (h : extrair_recibo_texto texto = some r) :
    (∀ g, ultimaFgts (psplitlines texto) = some g →
      r.fgtsBase = (normalizar_valor g).1 ∧
      ((normalizar_valor g).2 = false → avisoNaoRec r.mesAno g ∈ r.avisos)) ∧
    (ultimaFgts (psplitlines texto) = none →
      r.fgtsBase = Valor.zero ∧ avisoNaoEnc r.mesAno ∈ r.avisos) := by
  obtain ⟨-, hf, ha⟩ := extrair_components texto r h
  constructor
  · intro g hg
    have hfg := acharFgts_some r.mesAno (psplitlines texto) g hg
    constructor
    · rw [hf, hfg]
    · intro hnc
      rw [ha, hfg, hnc]
      simp
  · intro hg
    have hfg := acharFgts_none r.mesAno (psplitlines texto) hg
    exact ⟨by rw [hf, hfg], by rw [ha, hfg]; simp⟩

/-- C4 witness: a parsed page with no FGTS line anywhere - the base is
zero and the not-found warning is present. -/
theorem claim_C4_fgts_witness :
    ∃ r, extrair_recibo_texto paginaMinuscula = some r ∧
      ultimaFgts (psplitlines paginaMinuscula) = none ∧
      r.fgtsBase = Valor.zero ∧ avisoNaoEnc r.mesAno ∈ r.avisos := by
  have h : extrair_recibo_texto paginaMinuscula =
      some ⟨"Mai/2024", [], Valor.zero, [avisoNaoEnc "Mai/2024"]⟩ := by decide
  have h2 := (claim_C4_fgts _ _ h).2 (by decide)
  exact ⟨_, h, by decide, h2.1, h2.2⟩

/-- C2 counterexample: a line inside the earnings table whose trimmed
content starts with `Descrição` is skipped by the loop (it re-triggers
the `continue` branch), while the claim as stated records it: on
`paginaDescrInterna` the code keeps no earnings at all, but the claimed
slice-processing yields the `DESCRIÇÃO A` item. -/
theorem claim_C2_contra :
    extrair_recibo_texto paginaDescrInterna =
      some ⟨"Jan/2024", [], Valor.zero, [avisoNaoEnc "Jan/2024"]⟩ ∧
    (proventosSpecClaim "Jan/2024" (psplitlines paginaDescrInterna)).1 =
      [("DESCRIÇÃO A", ⟨500, 2⟩)] ∧
    ([] : List (String × Valor)) ≠ [("DESCRIÇÃO A", (⟨500, 2⟩ : Valor))] := by
  exact ⟨by decide, by decide, by decide⟩

/-- C2 (amended): the earnings table spans the lines strictly between
the first `Descrição` line and the first subsequent
`TOTAL DE PROVENTOS` line (or end of text), EXCEPT that lines themselves
starting with `Descrição` are skipped; each remaining line is trimmed
and split on runs of 2+ whitespace, and with at least 2 parts the
upper-cased first part maps to the normalised last part, warnings
(period, label, raw text) prefixed to the record's warning list when
normalisation is not confident. -/
theorem claim_C2_amended (texto : String) (r : Recibo)
    (h : extrair_recibo_texto texto = some r) :
    r.proventos = (proventosSpec r.mesAno (psplitlines texto)).1 ∧
    (proventosSpec r.mesAno (psplitlines texto)).2 <+: r.avisos := by
  obtain ⟨hp, -, ha⟩ := extrair_components texto r h
  rw [lerProvLoop_spec] at hp ha
  exact ⟨hp, ⟨(acharFgts r.mesAno (psplitlines texto)).2, ha.symm⟩⟩

/-- C2 witness: on the Scenario-A page the parsed earnings equal the
spec-side slice processing of its lines. -/
theorem claim_C2_amended_witness :
    ∃ r, extrair_recibo_texto paginaA = some r ∧
      r.proventos = (proventosSpec r.mesAno (psplitlines paginaA)).1 ∧
      (proventosSpec r.mesAno (psplitlines paginaA)).2 <+: r.avisos := by
  have h : extrair_recibo_texto paginaA =
      some ⟨"Mai/2024", [("SALARIO", ⟨300000, 2⟩), ("BONUS", ⟨50000, 2⟩)],
            ⟨300000, 2⟩, []⟩ := by decide
  obtain ⟨h1, h2⟩ := claim_C2_amended _ _ h
  exact ⟨_, h, h1, h2⟩

/-- C3 counterexample: `re_ref` is compiled with `re.IGNORECASE`, so the
month class `[A-ZÇ]+` also matches lower-case letters.  On a page whose
header month is the lower-case `maio`, no line matches the claim's
upper-case pattern, yet the parser returns a record (period `Mai/2024`)
instead of the `None` the claim requires. -/
theorem claim_C3_contra :
    ((psplitlines paginaMinuscula).take 8).all (fun ln => (searchRefSpec ln).isNone) = true ∧
    extrair_recibo_texto paginaMinuscula ≠ none := by
  exact ⟨by decide, by decide⟩

/-- C3 (amended): parse returns None iff none of the first 8 lines
matches the period-header pattern matched CASE-INSENSITIVELY (the word
`Referência`, accented or unaccented, then a month token of letters
`A-Z`/`a-z`/`Ç`/`ç`, a slash and a 4-digit year); the first matching
line wins, and the period key is the title-cased first 3 characters of
the matched month token, a slash, and the matched year. -/
theorem claim_C3_amended (texto : String) :
    (extrair_recibo_texto texto = none ↔
      ∀ ln ∈ (psplitlines texto).take 8, searchRef ln = none) ∧
    (∀ (i : ℕ) (hi : i < ((psplitlines texto).take 8).length) (m y : String),
      (∀ j (hj : j < i),
        searchRef (((psplitlines texto).take 8).get ⟨j, lt_trans hj hi⟩) = none) →
      searchRef (((psplitlines texto).take 8).get ⟨i, hi⟩) = some (m, y) →
      ∃ r, extrair_recibo_texto texto = some r ∧
        r.mesAno = (⟨title3 m.data⟩ : String) ++ "/" ++ y) := by
  constructor
  · rw [extrair_none_iff]
    exact List.findSome?_eq_none_iff
  · intro i hi m y hbefore hmatch
    exact extrair_found texto m y
      (findSome?_first_index searchRef _ i hi hbefore hmatch)

/-- C3 witness: the first line of a January page matches at index 0 and
fixes the period key `Jan/2024`. -/
theorem claim_C3_amended_witness :
    (¬ (extrair_recibo_texto paginaJan1 = none)) ∧
    (∃ r, extrair_recibo_texto paginaJan1 = some r ∧
      r.mesAno = (⟨title3 "JANEIRO".data⟩ : String) ++ "/" ++ "2024") := by
  have h := claim_C3_amended paginaJan1
  constructor
  · intro hn
    have hall := (h.1).mp hn
    have hmem : ("Referência: JANEIRO/2024" : String) ∈ (psplitlines paginaJan1).take 8 := by
      decide
    exact absurd (hall _ hmem) (by decide)
  · exact h.2 0 (by decide) "JANEIRO" "2024"
      (fun j hj => absurd hj (Nat.not_lt_zero j)) (by decide)

/-- C1: the Adobe strategy is tried first; when it raises (`a = none`)
or parses no records over the requested range, the run falls back to the
per-page native/OCR texts as one document-level retry (continuing with
pass 1's accumulators and clamped bounds); and when both passes produce
zero records the run returns (`some`, never an exception) the empty
table with the collected warnings. -/
theorem claim_C1_fallback (a : Option (List String)) (fb : List String) (pi pf : ℤ) :
    ((a = none ∨ (fase1 a pi pf).1.registros = []) →
      processar_pdf a fb pi pf =
        saida (processarTextos fb
          (pageIdxs fb.length (fase1 a pi pf).2.1 (fase1 a pi pf).2.2) (fase1 a pi pf).1)) ∧
    ((fase2 a fb pi pf).registros = [] →
      processar_pdf a fb pi pf = some (⟨[], []⟩, (fase2 a fb pi pf).avisos)) := by
  constructor
  · intro hl
    have hempty : (fase1 a pi pf).1.registros = [] := by
      rcases hl with hn | he
      · subst hn
        rfl
      · exact he
    unfold processar_pdf
    simp only [fase2]
    rw [hempty]
    rfl
  · intro he
    unfold processar_pdf saida
    rw [he]
    rfl

/-- C1 witness: with the Adobe call raising, the result is the
fallback-pass output; with Adobe text but no parsed record and an empty
fallback, the run returns the empty table and its (empty) warnings. -/
theorem claim_C1_fallback_witness :
    processar_pdf none [paginaJan1] 1 1 =
      saida (processarTextos [paginaJan1]
        (pageIdxs [paginaJan1].length (fase1 none 1 1).2.1 (fase1 none 1 1).2.2)
        (fase1 none 1 1).1) ∧
    processar_pdf (some ["x"]) [] 1 1 =
      some (⟨[], []⟩, (fase2 (some ["x"]) [] 1 1).avisos) := by
  exact ⟨(claim_C1_fallback none [paginaJan1] 1 1).1 (Or.inl rfl),
         (claim_C1_fallback (some ["x"]) [] 1 1).2 (by decide)⟩

theorem map_toRegistro_filter (l : List Recibo) (p : String) :
    (l.map toRegistro).filter (fun g => g.mesAno = p) =
      (l.filter (fun rc => rc.mesAno = p)).map toRegistro := by
  induction l with
  | nil => rfl
  | cons rc t ih =>
    by_cases hp : rc.mesAno = p
    · rw [List.map_cons, List.filter_cons_of_pos (by simp [toRegistro, hp]),
        List.filter_cons_of_pos (by simp [hp]), List.map_cons, ih]
    · rw [List.map_cons, List.filter_cons_of_neg (by simp [toRegistro, hp]),
        List.filter_cons_of_neg (by simp [hp]), ih]

/-- C8: when more than one page in the processed range parses to the
same period key, the output table holds exactly one row for that period
- the one built from the record of the first such page in page order
(`find?` over the parsed sequence); later duplicates are dropped. -/
theorem claim_C8_dedup (a : Option (List String)) (fb : List String) (pi pf : ℤ)
    (tab : Tabela) (w : List String) (p : String)
    (h : processar_pdf a fb pi pf = some (tab, w))
    (hc : 2 ≤ (parsedFinal a fb pi pf).countP (fun rc => rc.mesAno = p)) :
    ∃ r0, (parsedFinal a fb pi pf).find? (fun rc => rc.mesAno = p) = some r0 ∧
      tab.rows.filter (fun row => row.head? = some (Cell.str p)) =
        [mkRow (sortStrings (((keptFinal a fb pi pf).map
          (fun rc => rc.proventos.map Prod.fst)).flatten).dedup) (toRegistro r0)] := by
  unfold processar_pdf at h
  rw [fase2_spec] at h
  rw [List.countP_eq_length_filter] at hc
  rcases hfil : (parsedFinal a fb pi pf).filter (fun rc => rc.mesAno = p) with _ | ⟨r0, rest⟩
  · rw [hfil] at hc
    exact absurd hc (by simp)
  · refine ⟨r0, ?_, ?_⟩
    · rw [find?_filter_head?, hfil]
      rfl
    · have hkf : (keptFinal a fb pi pf).filter (fun rc => rc.mesAno = p) = [r0] := by
        unfold keptFinal
        rw [kept_filter_new _ _ _ (by rfl), hfil]
        rfl
      have hmem : r0 ∈ keptFinal a fb pi pf :=
        List.mem_of_mem_filter (by rw [hkf]; exact List.mem_singleton_self r0)
      have hne_kept : keptFinal a fb pi pf ≠ [] := by
        intro hnil
        rw [hnil] at hmem
        exact absurd hmem (List.not_mem_nil r0)
      have hne : ((keptFinal a fb pi pf).map toRegistro).isEmpty = false := by
        rw [List.isEmpty_eq_false_iff_exists_mem]
        exact ⟨toRegistro r0, List.mem_map_of_mem toRegistro hmem⟩
      have hmt := saida_tabela h hne
      obtain ⟨hall, htab⟩ := montarTabela_some hmt
      rw [htab]
      rw [rows_filter_period]
      have hperm : List.Perm
          ((List.insertionSort regRel ((keptFinal a fb pi pf).map toRegistro)).filter
            (fun g => g.mesAno = p))
          ((((keptFinal a fb pi pf).map toRegistro)).filter (fun g => g.mesAno = p)) :=
        (List.perm_insertionSort regRel _).filter _
      rw [map_toRegistro_filter, hkf] at hperm
      rw [List.perm_singleton.mp hperm]
      rfl

/-- C8 witness: two January pages in range; the parsed sequence holds
the period twice, the table exactly once, built from the first page. -/
theorem claim_C8_dedup_witness :
    2 ≤ (parsedFinal (some [paginaJan1, paginaJan2]) [] 1 2).countP
        (fun rc => rc.mesAno = "Jan/2024") ∧
    ∃ tab w r0,
      processar_pdf (some [paginaJan1, paginaJan2]) [] 1 2 = some (tab, w) ∧
      (parsedFinal (some [paginaJan1, paginaJan2]) [] 1 2).find?
          (fun rc => rc.mesAno = "Jan/2024") = some r0 ∧
      tab.rows.filter (fun row => row.head? = some (Cell.str "Jan/2024")) =
        [mkRow (sortStrings (((keptFinal (some [paginaJan1, paginaJan2]) [] 1 2).map
          (fun rc => rc.proventos.map Prod.fst)).flatten).dedup) (toRegistro r0)] := by
  refine ⟨by decide, ?_⟩
  obtain ⟨tab, w, hw⟩ : ∃ tab w,
      processar_pdf (some [paginaJan1, paginaJan2]) [] 1 2 = some (tab, w) := by
    rcases hp : processar_pdf (some [paginaJan1, paginaJan2]) [] 1 2 with _ | x
    · exact absurd hp (by decide)
    · exact ⟨x.1, x.2, by rfl⟩
  obtain ⟨r0, hfind, hrows⟩ :=
    claim_C8_dedup (some [paginaJan1, paginaJan2]) [] 1 2 tab w "Jan/2024" hw (by decide)
  exact ⟨tab, w, r0, hw, hfind, hrows⟩

theorem lexLe_cons_iff (a b : Char) (as bs : List Char) :
    lexLe (a :: as) (b :: bs) = true ↔
      a.toNat < b.toNat ∨ (a.toNat = b.toNat ∧ lexLe as bs = true) := by
  have hstep : lexLe (a :: as) (b :: bs) =
      (if a.toNat < b.toNat then true
       else if b.toNat < a.toNat then false else lexLe as bs) := rfl
  rw [hstep]
  by_cases h1 : a.toNat < b.toNat
  · rw [if_pos h1]
    simp [h1]
  · rw [if_neg h1]
    by_cases h2 : b.toNat < a.toNat
    · rw [if_pos h2]
      constructor
      · intro hf
        exact absurd hf Bool.false_ne_true
      · intro hc
        rcases hc with hc | ⟨hc, -⟩
        · exact absurd hc h1
        · omega
    · rw [if_neg h2]
      constructor
      · intro ht
        exact Or.inr ⟨by omega, ht⟩
      · intro hc
        rcases hc with hc | ⟨-, hc⟩
        · exact absurd hc h1
        · exact hc

theorem lexLe_total : ∀ (l1 l2 : List Char), lexLe l1 l2 = true ∨ lexLe l2 l1 = true
  | [], _ => Or.inl rfl
  | _ :: _, [] => Or.inr rfl
  | a :: as, b :: bs => by
    rcases Nat.lt_trichotomy a.toNat b.toNat with h | h | h
    · exact Or.inl ((lexLe_cons_iff a b as bs).mpr (Or.inl h))
    · rcases lexLe_total as bs with ht | ht
      · exact Or.inl ((lexLe_cons_iff a b as bs).mpr (Or.inr ⟨h, ht⟩))
      · exact Or.inr ((lexLe_cons_iff b a bs as).mpr (Or.inr ⟨h.symm, ht⟩))
    · exact Or.inr ((lexLe_cons_iff b a bs as).mpr (Or.inl h))

theorem lexLe_trans : ∀ {l1 l2 l3 : List Char},
    lexLe l1 l2 = true → lexLe l2 l3 = true → lexLe l1 l3 = true
  | [], _, _, _, _ => rfl
  | a :: as, [], _, h1, _ => by
    rw [show lexLe (a :: as) [] = false from rfl] at h1
    exact absurd h1 Bool.false_ne_true
  | a :: as, b :: bs, [], _, h2 => by
    rw [show lexLe (b :: bs) [] = false from rfl] at h2
    exact absurd h2 Bool.false_ne_true
  | a :: as, b :: bs, c :: cs, h1, h2 => by
    rw [lexLe_cons_iff] at h1 h2 ⊢
    rcases h1 with h1 | ⟨h1e, h1t⟩
    · rcases h2 with h2 | ⟨h2e, -⟩
      · exact Or.inl (Nat.lt_trans h1 h2)
      · exact Or.inl (by omega)
    · rcases h2 with h2 | ⟨h2e, h2t⟩
      · exact Or.inl (by omega)
      · exact Or.inr ⟨by omega, lexLe_trans h1t h2t⟩

instance : IsTotal String strLe := ⟨fun a b => lexLe_total a.data b.data⟩

instance : IsTrans String strLe := ⟨fun _ _ _ h1 h2 => lexLe_trans h1 h2⟩

theorem sortStrings_sorted (l : List String) : (sortStrings l).Sorted strLe :=
  List.sorted_insertionSort strLe l

theorem buscaValor_not_mem (k : String) (l : List (String × Valor))
    (h : k ∉ l.map Prod.fst) : buscaValor k l = Valor.zero := by
  induction l with
  | nil => rfl
  | cons kv t ih =>
    rw [List.map_cons] at h
    unfold buscaValor
    rw [if_neg (fun he => h (by rw [he]; exact List.mem_cons_self _ _))]
    exact ih (fun hm => h (List.mem_cons_of_mem _ hm))

theorem mkRow_length (rubs : List String) (g : Registro) :
    (mkRow rubs g).length = rubs.length + 2 := by
  simp [mkRow]

theorem mkRow_label_cell (rubs : List String) (g : Registro) (j : ℕ) (hj : j < rubs.length) :
    (mkRow rubs g)[j + 1]? = some (Cell.num (buscaValor (rubs.getD j "") g.proventos)) := by
  have hr : rubs.getD j "" = rubs[j] := by
    rw [List.getD_eq_getElem?_getD, List.getElem?_eq_getElem hj]
    rfl
  unfold mkRow
  rw [hr]
  simp [List.getElem?_append_left, List.length_map, hj, List.getElem?_eq_getElem hj]

/-- C9 counterexample: labels of a page dropped as a duplicate period do
not enter the column union.  With two January pages, the second carrying
the extra label `BONUS`, the claim's column list (union over ALL parsed
records) contains `BONUS` but the columns of the code do not. -/
theorem claim_C9_contra :
    (processar_pdf (some [paginaJan1, paginaJan2]) [] 1 2).map (fun x => x.1.cols) =
      some ["Mês/Ano", "SALARIO", "Base FGTS"] ∧
    colunasDeParsed (parsedFinal (some [paginaJan1, paginaJan2]) [] 1 2) =
      ["Mês/Ano", "BONUS", "SALARIO", "Base FGTS"] ∧
    (["Mês/Ano", "SALARIO", "Base FGTS"] : List String) ≠
      ["Mês/Ano", "BONUS", "SALARIO", "Base FGTS"] := by
  exact ⟨by decide, by decide, by decide⟩

/-- C9 (amended): in a non-empty output table the columns are the period
column, then the alphabetically sorted union of the labels of the KEPT
(first-per-period) records, then the tax-base column; and every row is
built from one kept record with a numeric cell for every label column -
zero when that record never mentioned the label. -/
theorem claim_C9_amended (a : Option (List String)) (fb : List String) (pi pf : ℤ)
    (tab : Tabela) (w : List String)
    (h : processar_pdf a fb pi pf = some (tab, w)) (hne : tab.rows ≠ []) :
    tab.cols = "Mês/Ano" ::
      sortStrings (((keptFinal a fb pi pf).map
        (fun rc => rc.proventos.map Prod.fst)).flatten).dedup ++ ["Base FGTS"] ∧
    (sortStrings (((keptFinal a fb pi pf).map
        (fun rc => rc.proventos.map Prod.fst)).flatten).dedup).Sorted strLe ∧
    (∀ lab, lab ∈ sortStrings (((keptFinal a fb pi pf).map
        (fun rc => rc.proventos.map Prod.fst)).flatten).dedup ↔
      ∃ rc ∈ keptFinal a fb pi pf, lab ∈ rc.proventos.map Prod.fst) ∧
    (∀ row ∈ tab.rows, ∃ rc ∈ keptFinal a fb pi pf,
      row = mkRow (sortStrings (((keptFinal a fb pi pf).map
        (fun rc => rc.proventos.map Prod.fst)).flatten).dedup) (toRegistro rc) ∧
      row.length = tab.cols.length ∧
      ∀ j, j < tab.cols.length - 2 →
        row[j + 1]? = some (Cell.num (buscaValor (tab.cols.getD (j + 1) "") rc.proventos)) ∧
        (tab.cols.getD (j + 1) "" ∉ rc.proventos.map Prod.fst →
          row[j + 1]? = some (Cell.num Valor.zero))) := by
  unfold processar_pdf at h
  rw [fase2_spec] at h
  have hkne : ((keptFinal a fb pi pf).map toRegistro).isEmpty = false := by
    by_contra hc
    rw [Bool.not_eq_false] at hc
    unfold saida at h
    rw [if_pos hc] at h
    injection h with h1
    injection h1 with hA hB
    rw [← hA] at hne
    exact hne rfl
  have hmt := saida_tabela h hkne
  obtain ⟨hall, htab⟩ := montarTabela_some hmt
  have hrubs : (Estado.mk ((keptFinal a fb pi pf).map toRegistro)
      (((keptFinal a fb pi pf).map (fun rc => rc.proventos.map Prod.fst)).flatten)
      (((keptFinal a fb pi pf).map Recibo.avisos).flatten) : Estado).rubricas =
      ((keptFinal a fb pi pf).map (fun rc => rc.proventos.map Prod.fst)).flatten := rfl
  rw [hrubs] at htab
  set rubs := sortStrings (((keptFinal a fb pi pf).map
    (fun rc => rc.proventos.map Prod.fst)).flatten).dedup with hrubsdef
  have hcols : tab.cols = "Mês/Ano" :: rubs ++ ["Base FGTS"] := by
    rw [htab]
  have hclen : tab.cols.length - 2 = rubs.length := by
    rw [hcols]
    simp
  have hcget : ∀ j, j < rubs.length → tab.cols.getD (j + 1) "" = rubs.getD j "" := by
    intro j hj
    have h2 : (rubs ++ ["Base FGTS"]).getD j "" = rubs.getD j "" := by
      rw [List.getD_eq_getElem?_getD, List.getElem?_append_left hj,
        ← List.getD_eq_getElem?_getD]
    rw [hcols]
    exact h2
  refine ⟨hcols, sortStrings_sorted _, ?_, ?_⟩
  · intro lab
    have hperm := List.perm_insertionSort strLe
      ((((keptFinal a fb pi pf).map (fun rc => rc.proventos.map Prod.fst)).flatten).dedup)
    rw [hrubsdef]
    unfold sortStrings
    rw [hperm.mem_iff, List.mem_dedup, List.mem_flatten]
    constructor
    · rintro ⟨ls, hls, hlab⟩
      rcases List.mem_map.mp hls with ⟨rc, hrc, hrceq⟩
      exact ⟨rc, hrc, by rw [hrceq]; exact hlab⟩
    · rintro ⟨rc, hrc, hlab⟩
      exact ⟨rc.proventos.map Prod.fst, List.mem_map_of_mem _ hrc, hlab⟩
  · intro row hrow
    rw [htab] at hrow
    have hrow2 : row ∈ (List.insertionSort regRel
        ((keptFinal a fb pi pf).map toRegistro)).map (mkRow rubs) := hrow
    rcases List.mem_map.mp hrow2 with ⟨g, hg, hgeq⟩
    have hg2 : g ∈ (keptFinal a fb pi pf).map toRegistro :=
      (List.perm_insertionSort regRel _).mem_iff.mp hg
    rcases List.mem_map.mp hg2 with ⟨rc, hrc, hrceq⟩
    refine ⟨rc, hrc, ?_, ?_, ?_⟩
    · rw [← hgeq, ← hrceq]
    · rw [← hgeq, mkRow_length, hcols]
      simp
    · intro j hj
      rw [hclen] at hj
      rw [hcget j hj, ← hgeq, ← hrceq]
      have hcell := mkRow_label_cell rubs (toRegistro rc) j hj
      constructor
      · exact hcell
      · intro hnot
        have hnot2 : rubs.getD j "" ∉ (toRegistro rc).proventos.map Prod.fst := hnot
        rw [hcell, buscaValor_not_mem _ _ hnot2]

/-- C9 witness: the two-period run has the period column first, the
sorted kept-label union, the tax base last, and each row built from one
kept record (note the zero cells for the labels the record lacks). -/
theorem claim_C9_amended_witness :
    processar_pdf (some [paginaJan1, paginaMar]) [] 1 2 = some (tabelaJanMar, []) ∧
    tabelaJanMar.cols = "Mês/Ano" ::
      sortStrings (((keptFinal (some [paginaJan1, paginaMar]) [] 1 2).map
        (fun rc => rc.proventos.map Prod.fst)).flatten).dedup ++ ["Base FGTS"] ∧
    (∀ row ∈ tabelaJanMar.rows, ∃ rc ∈ keptFinal (some [paginaJan1, paginaMar]) [] 1 2,
      row = mkRow (sortStrings (((keptFinal (some [paginaJan1, paginaMar]) [] 1 2).map
        (fun rc => rc.proventos.map Prod.fst)).flatten).dedup) (toRegistro rc)) := by
  have hw : processar_pdf (some [paginaJan1, paginaMar]) [] 1 2 =
      some (tabelaJanMar, []) := by decide
  obtain ⟨hcols, -, -, hrows⟩ :=
    claim_C9_amended (some [paginaJan1, paginaMar]) [] 1 2 tabelaJanMar [] hw (by decide)
  refine ⟨hw, hcols, ?_⟩
  intro row hrow
  obtain ⟨rc, hrc, heq, -, -⟩ := hrows row hrow
  exact ⟨rc, hrc, heq⟩

theorem dictAppend_busca (k p : ℕ) (v : String) (d : List (ℕ × List String)) :
    buscaPag p (dictAppend k v d) =
      if k = p then buscaPag p d ++ [v] else buscaPag p d := by
  induction d with
  | nil =>
    by_cases hk : k = p
    · simp [dictAppend, buscaPag, hk]
    · simp [dictAppend, buscaPag, hk]
  | cons kv rest ih =>
    rcases kv with ⟨k2, vs⟩
    by_cases h2 : k2 = k
    · subst h2
      by_cases hp : k2 = p
      · subst hp
        simp [dictAppend, buscaPag]
      · simp [dictAppend, buscaPag, hp]
    · by_cases hp : k2 = p
      · subst hp
        have hkp : ¬ (k = k2) := fun he => h2 he.symm
        simp [dictAppend, buscaPag, h2, hkp]
      · simp [dictAppend, buscaPag, h2, hp, ih]

theorem dictAppend_keys (k : ℕ) (v : String) (d : List (ℕ × List String)) :
    (dictAppend k v d).map Prod.fst =
      if k ∈ d.map Prod.fst then d.map Prod.fst else d.map Prod.fst ++ [k] := by
  induction d with
  | nil => simp [dictAppend]
  | cons kv rest ih =>
    rcases kv with ⟨k2, vs⟩
    by_cases h2 : k2 = k
    · subst h2
      simp [dictAppend]
    · have hne : ¬ (k = k2) := fun he => h2 he.symm
      by_cases hmem : k ∈ rest.map Prod.fst
      · simp [dictAppend, h2, ih, hmem, hne]
      · simp [dictAppend, h2, ih, hmem, hne]

theorem foldDict_busca (es : List (ℕ × String)) (d : List (ℕ × List String)) (p : ℕ) :
    buscaPag p (es.foldl (fun d e => dictAppend e.1 e.2 d) d) =
      buscaPag p d ++ (es.filter (fun e => e.1 = p)).map Prod.snd := by
  induction es generalizing d with
  | nil => simp
  | cons e rest ih =>
    rw [List.foldl_cons, ih, dictAppend_busca]
    by_cases hp : e.1 = p
    · rw [if_pos hp, List.filter_cons_of_pos (by simp [hp]), List.map_cons,
        List.append_assoc]
      rfl
    · rw [if_neg hp, List.filter_cons_of_neg (by simp [hp])]

theorem foldDict_keys_mem (es : List (ℕ × String)) (d : List (ℕ × List String)) (p : ℕ) :
    p ∈ (es.foldl (fun d e => dictAppend e.1 e.2 d) d).map Prod.fst ↔
      p ∈ d.map Prod.fst ∨ p ∈ es.map Prod.fst := by
  induction es generalizing d with
  | nil => simp
  | cons e rest ih =>
    rw [List.foldl_cons, ih, dictAppend_keys]
    by_cases hmem : e.1 ∈ d.map Prod.fst
    · rw [if_pos hmem]
      simp only [List.map_cons, List.mem_cons]
      constructor
      · tauto
      · rintro (hd | he | hr)
        · tauto
        · subst he
          tauto
        · tauto
    · rw [if_neg hmem]
      simp only [List.mem_append, List.mem_singleton, List.map_cons, List.mem_cons]
      tauto

theorem foldDict_keys_nodup (es : List (ℕ × String)) (d : List (ℕ × List String))
    (h : (d.map Prod.fst).Nodup) :
    ((es.foldl (fun d e => dictAppend e.1 e.2 d) d).map Prod.fst).Nodup := by
  induction es generalizing d with
  | nil => exact h
  | cons e rest ih =>
    rw [List.foldl_cons]
    apply ih
    rw [dictAppend_keys]
    by_cases hmem : e.1 ∈ d.map Prod.fst
    · rw [if_pos hmem]
      exact h
    · rw [if_neg hmem]
      rw [List.nodup_append]
      refine ⟨h, List.nodup_singleton _, ?_⟩
      intro x hx hb
      rw [List.mem_singleton] at hb
      subst hb
      exact hmem hx

/-- C6 counterexample: when a document page has no text elements, the
returned list skips it, so the entry at position `i` is NOT the text of
page `i + 1`: with elements on pages 1 and 3 only, position 1 holds page
3 holds the wrong text and the (empty) text of page 2 never appears. -/
theorem claim_C6_contra :
    extract_pdf_adobe [(1, "a"), (3, "b")] = ["a", "b"] ∧
    ¬ posContract [(1, "a"), (3, "b")] := by
  refine ⟨by decide, ?_⟩
  intro hpc
  have h1 := hpc 1 (by decide)
  exact absurd h1 (by decide)

/-- C6 (amended): the remote post-processing groups the elements by page
number, joins each page's fragments in element order, and returns one
entry per DISTINCT page number present in the response, sorted ascending
- positional page alignment therefore holds only when the element pages
are exactly 1..N. -/
theorem claim_C6_amended (es : List (ℕ × String)) :
    extract_pdf_adobe es = adobeSpecDesc es := by
  simp only [extract_pdf_adobe, adobeSpecDesc]
  have hnodup : ((es.foldl (fun d e => dictAppend e.1 e.2 d) []).map Prod.fst).Nodup :=
    foldDict_keys_nodup es [] (by simp)
  have hperm : List.Perm
      ((es.foldl (fun d e => dictAppend e.1 e.2 d) []).map Prod.fst)
      ((es.map Prod.fst).dedup) := by
    rw [List.perm_ext_iff_of_nodup hnodup (List.nodup_dedup _)]
    intro p
    rw [foldDict_keys_mem, List.mem_dedup]
    simp
  have hsort : List.insertionSort (· ≤ ·)
      ((es.foldl (fun d e => dictAppend e.1 e.2 d) []).map Prod.fst) =
      List.insertionSort (· ≤ ·) ((es.map Prod.fst).dedup) := by
    exact @List.eq_of_perm_of_sorted ℕ (· ≤ ·) _ _ _
      (((List.perm_insertionSort _ _).trans hperm).trans
        (List.perm_insertionSort _ _).symm)
      (List.sorted_insertionSort _ _) (List.sorted_insertionSort _ _)
  rw [hsort]
  apply List.map_congr_left
  intro p _
  rw [foldDict_busca]
  rfl

theorem digitChar_facts : ∀ d : Fin 10,
    isDig (digitChar d) = true ∧ digVal (digitChar d) = d.val ∧
    digitChar d ≠ '.' ∧ digitChar d ≠ ',' ∧ digitChar d ≠ '+' ∧
    digitChar d ≠ '-' ∧ pws (digitChar d) = false := by
  decide

theorem group3Rev_short (l : List Char)
    (h : ∀ (a b c d : Char) (tail : List Char), l = a :: b :: c :: d :: tail → False) :
    group3Rev l = l := by
  rw [group3Rev.eq_def]
  rcases l with _ | ⟨a, _ | ⟨b, _ | ⟨c, _ | ⟨d, rest⟩⟩⟩⟩
  · rfl
  · rfl
  · rfl
  · rfl
  · exact (h a b c d rest rfl).elim

theorem group3Rev_filter (l : List Char) :
    (group3Rev l).filter (fun c => c ≠ '.') = l.filter (fun c => c ≠ '.') := by
  induction l using group3Rev.induct with
  | case1 a b c d rest ih =>
    simp only [group3Rev, List.filter_cons, ih]
    norm_num
  | case2 l h => rw [group3Rev_short l h]

theorem group3Rev_mem {c : Char} : ∀ {l : List Char}, c ∈ group3Rev l → c ∈ l ∨ c = '.' := by
  intro l
  induction l using group3Rev.induct with
  | case1 a b c2 d rest ih =>
    intro hm
    simp only [group3Rev, List.mem_cons] at hm
    rcases hm with h | h | h | h | h
    · exact Or.inl (by simp [h])
    · exact Or.inl (by simp [h])
    · exact Or.inl (by simp [h])
    · exact Or.inr h
    · rcases ih h with h2 | h2
      · exact Or.inl (by simp [List.mem_cons] at h2 ⊢; tauto)
      · exact Or.inr h2
  | case2 l h =>
    intro hm
    rw [group3Rev_short l h] at hm
    exact Or.inl hm

theorem group3Rev_ne_nil : ∀ {l : List Char}, l ≠ [] → group3Rev l ≠ [] := by
  intro l
  induction l using group3Rev.induct with
  | case1 a b c d rest ih =>
    intro _
    simp [group3Rev]
  | case2 l h =>
    intro hne
    rw [group3Rev.eq_def]
    rcases l with _ | ⟨a, _ | ⟨b, _ | ⟨c, _ | ⟨d, rest⟩⟩⟩⟩ <;> simp_all

theorem takeWhile_all_append (p : Char → Bool) (l1 l2 : List Char)
    (h : ∀ c ∈ l1, p c = true) :
    (l1 ++ l2).takeWhile p = l1 ++ l2.takeWhile p := by
  induction l1 with
  | nil => rfl
  | cons c t ih =>
    rw [List.cons_append, List.takeWhile_cons, if_pos (h c (List.mem_cons_self c t)),
      ih (fun x hx => h x (List.mem_cons_of_mem _ hx)), List.cons_append]

theorem takeWhile_all (p : Char → Bool) (l : List Char) (h : ∀ c ∈ l, p c = true) :
    l.takeWhile p = l := by
  have h2 := takeWhile_all_append p l [] h
  simpa using h2

theorem pyCore_int (ip : List Char) (hne : ip ≠ []) (hdig : ∀ c ∈ ip, isDig c = true) :
    pyCore ip = some ⟨(digitsValN ip : ℤ), 0⟩ := by
  simp only [pyCore]
  rw [takeWhile_all isDig ip hdig, List.drop_length]
  show (if ip.isEmpty = true then none else pyRest (digitsValN ip) 0 []) = _
  rw [if_neg (by simp [List.isEmpty_iff, hne])]
  rfl

theorem pyCore_frac (ip fp : List Char) (hne : ip ≠ [])
    (hdi : ∀ c ∈ ip, isDig c = true) (hdf : ∀ c ∈ fp, isDig c = true) :
    pyCore (ip ++ '.' :: fp) =
      some ⟨((digitsValN ip * 10 ^ fp.length + digitsValN fp : ℕ) : ℤ), fp.length⟩ := by
  simp only [pyCore]
  have htw : (ip ++ '.' :: fp).takeWhile isDig = ip := by
    rw [takeWhile_all_append isDig ip ('.' :: fp) hdi, List.takeWhile_cons,
      if_neg (by decide)]
    exact List.append_nil ip
  rw [htw, List.drop_left]
  show (if ip.isEmpty = true ∧ ((fp.takeWhile isDig).isEmpty = true) then none
        else pyRest
          (digitsValN ip * 10 ^ (fp.takeWhile isDig).length +
            digitsValN (fp.takeWhile isDig))
          (fp.takeWhile isDig).length (fp.drop (fp.takeWhile isDig).length)) = _
  rw [takeWhile_all isDig fp hdf, List.drop_length,
    if_neg (fun hc => by rw [List.isEmpty_iff] at hc; exact hne hc.1)]
  rfl

theorem pyFloatDec_digit (c : Char) (r : List Char) (h : isDig c = true) :
    pyFloatDec (c :: r) = pyCore (c :: r) := by
  show (if c = '+' then pyCore r
        else if c = '-' then Option.map (fun v => ⟨-v.m, v.s⟩) (pyCore r)
        else pyCore (c :: r)) = pyCore (c :: r)
  rw [if_neg (fun he => by rw [he] at h; exact absurd h (by decide)),
    if_neg (fun he => by rw [he] at h; exact absurd h (by decide))]

theorem digitsValN_map (ds : List (Fin 10)) : digitsValN (ds.map digitChar) = natDe ds := by
  unfold digitsValN natDe
  suffices h : ∀ (a : ℕ), (ds.map digitChar).foldl (fun a c => 10 * a + digVal c) a =
      ds.foldl (fun a d => 10 * a + d.val) a from h 0
  induction ds with
  | nil => intro a; rfl
  | cons d t ih =>
    intro a
    rw [List.map_cons, List.foldl_cons, List.foldl_cons, (digitChar_facts d).2.1, ih]

theorem filter_dot_digits (ds : List (Fin 10)) :
    (ds.map digitChar).filter (fun c => c ≠ '.') = ds.map digitChar := by
  rw [List.filter_eq_self]
  intro c hc
  rcases List.mem_map.mp hc with ⟨d, -, hd⟩
  subst hd
  simp [(digitChar_facts d).2.2.1]

theorem map_comma_digits (ds : List (Fin 10)) :
    (ds.map digitChar).map (fun c => if c = ',' then '.' else c) = ds.map digitChar := by
  rw [List.map_map]
  apply List.map_congr_left
  intro d _
  show (if digitChar d = ',' then '.' else digitChar d) = digitChar d
  rw [if_neg (digitChar_facts d).2.2.2.1]

theorem stripDotsRepl_locFormat (ds dec : List (Fin 10)) :
    (stripDotsRepl (locFormat ds dec)).data =
      ds.map digitChar ++ (if dec.isEmpty then [] else '.' :: dec.map digitChar) := by
  unfold stripDotsRepl locFormat
  show ((((group3Rev (ds.map digitChar).reverse).reverse ++
      (if dec.isEmpty then [] else ',' :: dec.map digitChar)).filter
        (fun c => c ≠ '.')).map (fun c => if c = ',' then '.' else c)) = _
  rw [List.filter_append, List.map_append]
  have h1 : (((group3Rev (ds.map digitChar).reverse).reverse.filter
      (fun c => c ≠ '.')).map (fun c => if c = ',' then '.' else c)) = ds.map digitChar := by
    rw [List.filter_reverse, group3Rev_filter, ← List.filter_reverse, List.reverse_reverse,
      filter_dot_digits, map_comma_digits]
  rw [h1]
  by_cases hd : dec.isEmpty
  · rw [if_pos hd, if_pos hd]
    rfl
  · rw [if_neg hd, if_neg hd, List.filter_cons_of_pos (by decide), List.map_cons]
    rw [show (if (',' : Char) = ',' then '.' else ',') = '.' from rfl]
    rw [filter_dot_digits, map_comma_digits]

theorem dropWhile_all_false (p : Char → Bool) (l : List Char)
    (h : ∀ c ∈ l, p c = false) : l.dropWhile p = l := by
  cases l with
  | nil => rfl
  | cons c t =>
    rw [List.dropWhile_cons, if_neg (by simp [h c (List.mem_cons_self c t)])]

theorem pstripL_eq_self (l : List Char) (h : ∀ c ∈ l, pws c = false) : pstripL l = l := by
  unfold pstripL
  rw [dropWhile_all_false pws l h,
    dropWhile_all_false pws l.reverse (fun c hc => h c (List.mem_reverse.mp hc)),
    List.reverse_reverse]

theorem locFormat_classes (ds dec : List (Fin 10)) (c : Char)
    (hc : c ∈ (locFormat ds dec).data) : isDig c = true ∨ c = '.' ∨ c = ',' := by
  unfold locFormat at hc
  rw [List.mem_append] at hc
  rcases hc with hc | hc
  · rw [List.mem_reverse] at hc
    rcases group3Rev_mem hc with hc | hc
    · rw [List.mem_reverse] at hc
      rcases List.mem_map.mp hc with ⟨d, -, hd⟩
      exact Or.inl (hd ▸ (digitChar_facts d).1)
    · exact Or.inr (Or.inl hc)
  · by_cases hd : dec.isEmpty
    · rw [if_pos hd] at hc
      exact absurd hc (List.not_mem_nil c)
    · rw [if_neg hd, List.mem_cons] at hc
      rcases hc with hc | hc
      · exact Or.inr (Or.inr hc)
      · rcases List.mem_map.mp hc with ⟨d, -, hdx⟩
        exact Or.inl (hdx ▸ (digitChar_facts d).1)

theorem isDig_not_ws (c : Char) (h : isDig c = true) : pws c = false := by
  unfold isDig at h
  have h2 := of_decide_eq_true h
  apply decide_eq_false
  rintro (he | he | he | he | he | he) <;> (subst he; revert h2; decide)

theorem pstrip_locFormat (ds dec : List (Fin 10)) :
    pstrip (locFormat ds dec) = locFormat ds dec := by
  unfold pstrip
  have h : pstripL (locFormat ds dec).data = (locFormat ds dec).data := by
    apply pstripL_eq_self
    intro c hc
    rcases locFormat_classes ds dec c hc with h | h | h
    · exact isDig_not_ws c h
    · subst h; decide
    · subst h; decide
  rw [h]

theorem mapped_digits (l : List (Fin 10)) : ∀ c ∈ l.map digitChar, isDig c = true := by
  intro c hc
  rcases List.mem_map.mp hc with ⟨d, -, hd⟩
  exact hd ▸ (digitChar_facts d).1

theorem pyFloatDec_locFormat (ds dec : List (Fin 10)) (hne : ds ≠ []) :
    pyFloatDec (stripDotsRepl (locFormat ds dec)).data =
      some ⟨((natDe ds * 10 ^ dec.length + natDe dec : ℕ) : ℤ), dec.length⟩ := by
  rw [stripDotsRepl_locFormat]
  rcases ds with _ | ⟨d0, ds'⟩
  · exact absurd rfl hne
  · by_cases hd : dec.isEmpty
    · have hd2 : dec = [] := by rwa [List.isEmpty_iff] at hd
      subst hd2
      simp only [List.isEmpty_nil, if_true, List.append_nil]
      rw [show ((d0 :: ds').map digitChar) = digitChar d0 :: ds'.map digitChar from rfl]
      rw [pyFloatDec_digit _ _ (digitChar_facts d0).1]
      rw [show (digitChar d0 :: ds'.map digitChar) = ((d0 :: ds').map digitChar) from rfl]
      rw [pyCore_int _ (by simp) (mapped_digits (d0 :: ds'))]
      rw [digitsValN_map]
      simp [natDe]
    · rw [if_neg hd]
      rw [show ((d0 :: ds').map digitChar) = digitChar d0 :: ds'.map digitChar from rfl,
        List.cons_append]
      rw [pyFloatDec_digit _ _ (digitChar_facts d0).1]
      rw [← List.cons_append,
        show (digitChar d0 :: ds'.map digitChar) = ((d0 :: ds').map digitChar) from rfl]
      rw [pyCore_frac _ _ (by simp) (mapped_digits (d0 :: ds')) (mapped_digits dec)]
      rw [digitsValN_map, digitsValN_map, List.length_map]

theorem valorq_scaled (a b l : ℕ) :
    (Valor.mk ((a * 10 ^ l + b : ℕ) : ℤ) l).q = (a : ℚ) + (b : ℚ) / (10 : ℚ) ^ l := by
  unfold Valor.q
  push_cast
  rw [add_div]
  congr 1
  rw [mul_div_assoc, div_self (by positivity), mul_one]

theorem locFormat_ne_vazio (ds dec : List (Fin 10)) (hne : ds ≠ []) :
    locFormat ds dec ≠ "" := by
  intro he
  have hd : (locFormat ds dec).data = [] := by rw [he]
  unfold locFormat at hd
  rcases List.append_eq_nil.mp hd with ⟨h1, -⟩
  rw [List.reverse_eq_nil_iff] at h1
  exact group3Rev_ne_nil (by simp [hne]) h1

theorem locFormat_ne_traco (ds dec : List (Fin 10)) : locFormat ds dec ≠ "-" := by
  intro he
  have hd : (locFormat ds dec).data = ['-'] := by rw [he]
  have hm : '-' ∈ (locFormat ds dec).data := by rw [hd]; exact List.mem_singleton_self _
  rcases locFormat_classes ds dec '-' hm with h | h | h
  · exact absurd h (by decide)
  · exact absurd h (by decide)
  · exact absurd h (by decide)

/-- C5: `normalizar_valor` trims its input; the empty string, `-` and
`0,00` normalise confidently to zero; every locale-formatted amount
(dot-grouped integer digits, optional comma and up to 2 decimal digits)
normalises confidently to the value it denotes; and any input whose
transformed text (dots stripped, comma turned into a point) still fails
`float` parsing yields `(0.0, false)`. -/
theorem claim_C5_normalizar :
    (∀ s : String, (pstrip s = "" ∨ pstrip s = "-" ∨ pstrip s = "0,00") →
        normalizar_valor s = (Valor.zero, true)) ∧
    (∀ (ds dec : List (Fin 10)), ds ≠ [] → dec.length ≤ 2 →
        (normalizar_valor (locFormat ds dec)).2 = true ∧
        (normalizar_valor (locFormat ds dec)).1.q = locVal ds dec) ∧
    (∀ s : String, ¬ (pstrip s = "" ∨ pstrip s = "-" ∨ pstrip s = "0,00") →
        pyFloatDec (stripDotsRepl (pstrip s)).data = none →
        normalizar_valor s = (Valor.zero, false)) := by
  refine ⟨?_, ?_, ?_⟩
  · intro s h
    simp only [normalizar_valor]
    rw [if_pos h]
  · intro ds dec hne hlen
    have hparse := pyFloatDec_locFormat ds dec hne
    by_cases hz : locFormat ds dec = "0,00"
    · have hval0 : natDe ds = 0 ∧ natDe dec = 0 := by
        have hcomp : pyFloatDec (stripDotsRepl (locFormat ds dec)).data =
            some ⟨0, 2⟩ := by rw [hz]; decide
        rw [hparse] at hcomp
        injection hcomp with h1
        have h2 := (Valor.mk.injEq _ _ _ _).mp h1
        have h3 : (natDe ds * 10 ^ dec.length + natDe dec : ℕ) = 0 :=
          Int.natCast_eq_zero.mp h2.1
        rcases Nat.add_eq_zero.mp h3 with ⟨h4, h5⟩
        rcases Nat.mul_eq_zero.mp h4 with h6 | h6
        · exact ⟨h6, h5⟩
        · exact absurd h6 (Nat.pos_iff_ne_zero.mp (Nat.pos_pow_of_pos _ (by norm_num)))
      have hsp : pstrip (locFormat ds dec) = "" ∨ pstrip (locFormat ds dec) = "-" ∨
          pstrip (locFormat ds dec) = "0,00" := by
        rw [pstrip_locFormat, hz]
        exact Or.inr (Or.inr rfl)
      constructor
      · simp only [normalizar_valor]
        rw [if_pos hsp]
      · simp only [normalizar_valor]
        rw [if_pos hsp]
        show Valor.zero.q = locVal ds dec
        unfold Valor.zero Valor.q locVal
        rw [hval0.1, hval0.2]
        norm_num
    · have hsp : ¬ (pstrip (locFormat ds dec) = "" ∨ pstrip (locFormat ds dec) = "-" ∨
          pstrip (locFormat ds dec) = "0,00") := by
        rw [pstrip_locFormat]
        rintro (h | h | h)
        · exact locFormat_ne_vazio ds dec hne h
        · exact locFormat_ne_traco ds dec h
        · exact hz h
      constructor
      · simp only [normalizar_valor]
        rw [if_neg hsp, pstrip_locFormat, hparse]
      · simp only [normalizar_valor]
        rw [if_neg hsp, pstrip_locFormat, hparse]
        show (Valor.mk ((natDe ds * 10 ^ dec.length + natDe dec : ℕ) : ℤ) dec.length).q =
          locVal ds dec
        rw [valorq_scaled]
        rfl
  · intro s h hnone
    simp only [normalizar_valor]
    rw [if_neg h, hnone]

/-- C5 witness: a blank input, the formatted amount `1.234,56` (value
1234.56 = 123456/100) and the unparseable `abc`. -/
theorem claim_C5_normalizar_witness :
    normalizar_valor " " = (Valor.zero, true) ∧
    (normalizar_valor "1.234,56").2 = true ∧
    (normalizar_valor "1.234,56").1.q = locVal [1, 2, 3, 4] [5, 6] ∧
    locVal [1, 2, 3, 4] [5, 6] = 123456 / 100 ∧
    normalizar_valor "abc" = (Valor.zero, false) := by
  obtain ⟨h1, h2, h3⟩ := claim_C5_normalizar
  have hfmt : locFormat [1, 2, 3, 4] [5, 6] = "1.234,56" := by decide
  have hloc := h2 [1, 2, 3, 4] [5, 6] (by decide) (by decide)
  rw [hfmt] at hloc
  refine ⟨h1 " " (Or.inl (by decide)), hloc.1, hloc.2, ?_,
    h3 "abc" (by decide) (by decide)⟩
  have hn1 : natDe [1, 2, 3, 4] = 1234 := by decide
  have hn2 : natDe [5, 6] = 56 := by decide
  unfold locVal
  rw [hn1, hn2]
  norm_num
